import Mathlib

/-!
Verification of the typed predicate/ordering engine of csv-powerops
(`backend/internal/csvops/advanced_sort.go`, `advanced_extract.go`,
`backend/internal/utils/utils.go`) against its natural-language
specification.

The Go code is shallowly embedded: pure Go functions become Lean
functions over `String` / `List String`; a Go function that can return
an `error` or hit a runtime panic returns `GoOutcome`.  `float64`
values are modelled as rationals (`ℚ`): every claim below depends only
on parse success/failure and on order comparisons of small decimal
numbers, where the rational and the IEEE interpretation agree.
Strings are compared code-point-wise, which coincides with Go's
byte-wise comparison on UTF-8 text; case folding is modelled at the
ASCII level exercised by the code and claims.
-/

namespace CsvOps

/-- Outcome of running a Go function: a normal value, a returned
`error`, or a runtime panic. -/
inductive GoOutcome (α : Type) where
  | ok (a : α)
  | error (msg : String)
  | panic
  deriving Repr, DecidableEq

/-! ## Go string primitives (`strings` package, ASCII-level model) -/

/-- Go `unicode.IsSpace` restricted to the ASCII whitespace actually
exercised by the code and claims. -/
def goIsSpace (c : Char) : Bool :=
  c = ' ' ∨ c = '\t' ∨ c = '\n' ∨ c = '\x0b' ∨ c = '\x0c' ∨ c = '\r'

/-- Drop trailing whitespace characters (right half of `strings.TrimSpace`). -/
def trimRight : List Char → List Char
  | [] => []
  | c :: cs =>
    match trimRight cs with
    | [] => if goIsSpace c then [] else [c]
    | r => c :: r

/-- `strings.TrimSpace` on the character list. -/
def trimChars (l : List Char) : List Char :=
  trimRight (l.dropWhile goIsSpace)

/-- Go `strings.TrimSpace`. -/
def goTrimSpace (s : String) : String :=
  ⟨trimChars s.data⟩

/-- Go `strings.ToLower` (ASCII model; `Char.toLower` lowers `A`-`Z`). -/
def goToLower (s : String) : String :=
  ⟨s.data.map Char.toLower⟩

/-- Go `strings.EqualFold` (ASCII simple fold model). -/
def goEqualFold (a b : String) : Bool :=
  goToLower a = goToLower b

/-- Lexicographic code-point comparison of character lists; on UTF-8
text this coincides with Go's byte-wise `<` on strings. -/
def listLtChars : List Char → List Char → Bool
  | [], [] => false
  | [], _ :: _ => true
  | _ :: _, [] => false
  | a :: as1, b :: bs1 =>
    if a.toNat < b.toNat then true
    else if b.toNat < a.toNat then false
    else listLtChars as1 bs1

/-- Go `<` on strings. -/
def goStrLt (a b : String) : Bool :=
  listLtChars a.data b.data

theorem length_dropWhile_le (p : Char → Bool) (l : List Char) :
    (l.dropWhile p).length ≤ l.length := by
  induction l with
  | nil => simp [List.dropWhile]
  | cons c cs ih =>
    simp only [List.dropWhile]
    by_cases h : p c
    · simp [h]; omega
    · simp [h]

/-- Go `strings.Fields` on the character list: maximal runs of
non-whitespace characters. -/
def fieldsChars : List Char → List (List Char)
  | [] => []
  | c :: cs =>
    if goIsSpace c then fieldsChars cs
    else
      match cs with
      | [] => [[c]]
      | d :: _ =>
        if goIsSpace d then [c] :: fieldsChars cs
        else
          match fieldsChars cs with
          | [] => [[c]]
          | w :: ws => (c :: w) :: ws

/-- Go `strings.Fields`. -/
def goFields (s : String) : List String :=
  (fieldsChars s.data).map fun w => ⟨w⟩

/-- `strings.Join ws " "` on character lists. -/
def joinWords : List (List Char) → List Char
  | [] => []
  | [w] => w
  | w :: ws => w ++ ' ' :: joinWords ws

/-- Go `strings.ReplaceAll s "," ""`. -/
def removeCommas (s : String) : String :=
  ⟨s.data.filter (fun c => c ≠ ',')⟩

/-- Go `strings.Split s ","` (keeps empty chunks). -/
def splitCommaChars : List Char → List (List Char)
  | [] => [[]]
  | c :: cs =>
    if c = ',' then [] :: splitCommaChars cs
    else
      match splitCommaChars cs with
      | [] => [[c]]
      | w :: ws => (c :: w) :: ws

/-- Go `strings.Split s ","`. -/
def goSplitComma (s : String) : List String :=
  (splitCommaChars s.data).map fun w => ⟨w⟩

/-- Substring test on character lists (Go `strings.Contains`). -/
def containsChars : List Char → List Char → Bool
  | h, n => if n.isPrefixOf h then true else
    match h with
    | [] => false
    | _ :: t => containsChars t n

/-- Go `strings.Contains`. -/
def goContains (h n : String) : Bool :=
  containsChars h.data n.data

/-- Go `strings.HasPrefix`. -/
def goHasPrefix (s p : String) : Bool :=
  p.data.isPrefixOf s.data

/-- Go `strings.HasSuffix`. -/
def goHasSuffix (s p : String) : Bool :=
  p.data.isSuffixOf s.data

/-! ## Go numeric parsing (`strconv`, decimal model) -/

/-- Numeric value of a list of decimal digit characters. -/
def natFromDigits (l : List Char) : Nat :=
  l.foldl (fun acc c => acc * 10 + (c.toNat - '0'.toNat)) 0

/-- Parse an optional sign, returning the sign and the rest. -/
def parseSign : List Char → Int × List Char
  | '+' :: cs => (1, cs)
  | '-' :: cs => (-1, cs)
  | cs => (1, cs)

/-- Helper for `parseGoFloat`: parse an optional `e`/`E` exponent suffix,
which must consume the whole remaining input. -/
def parseExpSuffix (mantissa : ℚ) : List Char → Option ℚ
  | [] => some mantissa
  | e :: cs =>
    if e = 'e' ∨ e = 'E' then
      let (esign, ds) := parseSign cs
      let eDigits := ds.takeWhile Char.isDigit
      let eRest := ds.dropWhile Char.isDigit
      if eDigits.isEmpty ∨ ¬ eRest.isEmpty then none
      else some (mantissa * (10 : ℚ) ^ (esign * (natFromDigits eDigits : Int)))
    else none

/-- Go `strconv.ParseFloat` modelled on decimal syntax: optional sign,
digits with optional fractional part, optional `e`/`E` exponent; the
whole string must be consumed and at least one mantissa digit must be
present.  Hexadecimal floats, `Inf`/`NaN` forms, underscore digit
separators and IEEE rounding are not modelled: no claim below depends
on them, and the result is the exact rational value. -/
def parseGoFloat (s : String) : Option ℚ :=
  let (sign, rest) := parseSign s.data
  let intDigits := rest.takeWhile Char.isDigit
  let afterInt := rest.dropWhile Char.isDigit
  match afterInt with
  | '.' :: cs =>
    let fracDigits := cs.takeWhile Char.isDigit
    let afterFrac := cs.dropWhile Char.isDigit
    if intDigits.isEmpty ∧ fracDigits.isEmpty then none
    else
      parseExpSuffix ((sign * natFromDigits intDigits : Int) +
        sign * ((natFromDigits fracDigits : ℚ) / (10 ^ fracDigits.length : ℚ))) afterFrac
  | other =>
    if intDigits.isEmpty then none
    else parseExpSuffix ((sign * natFromDigits intDigits : Int) : ℚ) other

/-- Go `strconv.Atoi` modelled without the 64-bit range check (no claim
involves out-of-range indices): optional sign followed by one or more
digits, nothing else. -/
def goAtoi (s : String) : Option Int :=
  match s.data with
  | [] => none
  | l =>
    let (sign, rest) := parseSign l
    if rest.isEmpty ∨ ¬ (rest.all Char.isDigit) then none
    else some (sign * natFromDigits rest)

/-! ## Go `time.Parse` (subset interpreter)

The reference-layout tokens modelled are exactly the ones occurring in
the layout lists of `advanced_sort.go` / `advanced_extract.go`
(`2006`, `01`, `02`, `1`, `2`, `15`, `03`, `04`, `05`, `Jan`, `PM`,
`Z07:00`, `-07:00`); any other layout text is matched literally.  A
parsed time is represented by its instant as seconds relative to
1970-01-01 UTC, which is order-isomorphic to Go's `time.Time`
comparisons `Before`/`After`/`Equal`. -/

/-- A chunk of a Go time layout string. -/
inductive LChunk where
  | year4 | month2 | month1 | monthName | day2 | day1
  | hour24 | hour12 | min2 | sec2 | pmUpper | tzISO | tzColon
  | lit (c : Char)
  deriving Repr, DecidableEq

/-- Split a Go layout string into chunks (model of `nextStdChunk`,
restricted to the tokens listed above; longest match first, as in Go). -/
def layoutChunks : List Char → List LChunk
  | '2' :: '0' :: '0' :: '6' :: rest => .year4 :: layoutChunks rest
  | '1' :: '5' :: rest => .hour24 :: layoutChunks rest
  | '0' :: '1' :: rest => .month2 :: layoutChunks rest
  | '0' :: '2' :: rest => .day2 :: layoutChunks rest
  | '0' :: '3' :: rest => .hour12 :: layoutChunks rest
  | '0' :: '4' :: rest => .min2 :: layoutChunks rest
  | '0' :: '5' :: rest => .sec2 :: layoutChunks rest
  | 'J' :: 'a' :: 'n' :: rest => .monthName :: layoutChunks rest
  | 'P' :: 'M' :: rest => .pmUpper :: layoutChunks rest
  | 'Z' :: '0' :: '7' :: ':' :: '0' :: '0' :: rest => .tzISO :: layoutChunks rest
  | '-' :: '0' :: '7' :: ':' :: '0' :: '0' :: rest => .tzColon :: layoutChunks rest
  | '1' :: rest => .month1 :: layoutChunks rest
  | '2' :: rest => .day1 :: layoutChunks rest
  | c :: rest => .lit c :: layoutChunks rest
  | [] => []

/-- Components accumulated while parsing a time value.  Defaults are
Go's (`January 1, 00:00:00, year 0, UTC`). -/
structure GoDate where
  year : Int := 0
  month : Nat := 1
  day : Nat := 1
  hour : Nat := 0
  minute : Nat := 0
  second : Nat := 0
  pm : Option Bool := none
  isHour12 : Bool := false
  tzSec : Int := 0
  deriving Repr, DecidableEq

/-- Read exactly two digits. -/
def read2 : List Char → Option (Nat × List Char)
  | a :: b :: rest =>
    if a.isDigit ∧ b.isDigit then
      some ((a.toNat - '0'.toNat) * 10 + (b.toNat - '0'.toNat), rest)
    else none
  | _ => none

/-- Read one digit, or greedily two (Go `getnum` with `fixed = false`). -/
def read1or2 : List Char → Option (Nat × List Char)
  | a :: b :: rest =>
    if a.isDigit then
      if b.isDigit then
        some ((a.toNat - '0'.toNat) * 10 + (b.toNat - '0'.toNat), rest)
      else some (a.toNat - '0'.toNat, b :: rest)
    else none
  | [a] => if a.isDigit then some (a.toNat - '0'.toNat, []) else none
  | [] => none

/-- Read exactly four digits. -/
def read4 : List Char → Option (Nat × List Char)
  | a :: b :: c :: d :: rest =>
    if a.isDigit ∧ b.isDigit ∧ c.isDigit ∧ d.isDigit then
      some (natFromDigits [a, b, c, d], rest)
    else none
  | _ => none

/-- Three-letter English month abbreviations, lowercased. -/
def monthAbbrevs : List String :=
  ["jan", "feb", "mar", "apr", "may", "jun", "jul", "aug", "sep", "oct", "nov", "dec"]

/-- Read a month name abbreviation (case-insensitively, as Go does). -/
def readMonthName : List Char → Option (Nat × List Char)
  | a :: b :: c :: rest =>
    match monthAbbrevs.indexOf? (⟨[a.toLower, b.toLower, c.toLower]⟩ : String) with
    | some i => some (i + 1, rest)
    | none => none
  | _ => none

/-- Read a `±hh:mm` numeric time zone offset, in seconds. -/
def readTZColon : List Char → Option (Int × List Char)
  | s :: rest =>
    if s = '+' ∨ s = '-' then
      match read2 rest with
      | some (h, ':' :: rest2) =>
        match read2 rest2 with
        | some (m, rest3) =>
          some ((if s = '-' then -1 else 1) * ((h : Int) * 3600 + m * 60), rest3)
        | none => none
      | _ => none
    else none
  | [] => none

/-- Run a chunked layout against an input, accumulating components.
Both the layout and the input must be fully consumed. -/
def runChunks : List LChunk → List Char → GoDate → Option GoDate
  | [], [], st => some st
  | [], _ :: _, _ => none
  | ch :: chs, input, st =>
    match ch with
    | .year4 =>
      match read4 input with
      | some (v, rest) => runChunks chs rest { st with year := v }
      | none => none
    | .month2 =>
      match read2 input with
      | some (v, rest) => runChunks chs rest { st with month := v }
      | none => none
    | .month1 =>
      match read1or2 input with
      | some (v, rest) => runChunks chs rest { st with month := v }
      | none => none
    | .monthName =>
      match readMonthName input with
      | some (v, rest) => runChunks chs rest { st with month := v }
      | none => none
    | .day2 =>
      match read2 input with
      | some (v, rest) => runChunks chs rest { st with day := v }
      | none => none
    | .day1 =>
      match read1or2 input with
      | some (v, rest) => runChunks chs rest { st with day := v }
      | none => none
    | .hour24 =>
      match read1or2 input with
      | some (v, rest) => runChunks chs rest { st with hour := v }
      | none => none
    | .hour12 =>
      match read2 input with
      | some (v, rest) => runChunks chs rest { st with hour := v, isHour12 := true }
      | none => none
    | .min2 =>
      match read2 input with
      | some (v, rest) => runChunks chs rest { st with minute := v }
      | none => none
    | .sec2 =>
      match read2 input with
      | some (v, rest) => runChunks chs rest { st with second := v }
      | none => none
    | .pmUpper =>
      match input with
      | 'P' :: 'M' :: rest => runChunks chs rest { st with pm := some true }
      | 'A' :: 'M' :: rest => runChunks chs rest { st with pm := some false }
      | _ => none
    | .tzISO =>
      match input with
      | 'Z' :: rest => runChunks chs rest { st with tzSec := 0 }
      | _ =>
        match readTZColon input with
        | some (off, rest) => runChunks chs rest { st with tzSec := off }
        | none => none
    | .tzColon =>
      match readTZColon input with
      | some (off, rest) => runChunks chs rest { st with tzSec := off }
      | none => none
    | .lit c =>
      match input with
      | i :: rest => if i = c then runChunks chs rest st else none
      | [] => none

/-- Gregorian leap year. -/
def isLeap (y : Int) : Bool :=
  (Int.fmod y 4 = 0 ∧ Int.fmod y 100 ≠ 0) ∨ Int.fmod y 400 = 0

/-- Days in a month of a given year. -/
def daysInMonth (y : Int) (m : Nat) : Nat :=
  match m with
  | 1 => 31 | 2 => if isLeap y then 29 else 28 | 3 => 31 | 4 => 30
  | 5 => 31 | 6 => 30 | 7 => 31 | 8 => 31 | 9 => 30 | 10 => 31
  | 11 => 30 | 12 => 31
  | _ => 0

/-- Days since 1970-01-01 of a civil date (proleptic Gregorian). -/
def daysFromCivil (y : Int) (m d : Nat) : Int :=
  let y' := y - (if m ≤ 2 then 1 else 0)
  let era := Int.fdiv y' 400
  let yoe := y' - era * 400
  let mp := Int.fmod ((m : Int) + 9) 12
  let doy := Int.fdiv (153 * mp + 2) 5 + ((d : Int) - 1)
  let doe := yoe * 365 + Int.fdiv yoe 4 - Int.fdiv yoe 100 + doy
  era * 146097 + doe - 719468

/-- Validate the parsed components (Go's range errors) and produce the
instant in seconds since 1970-01-01 UTC. -/
def finalizeDate (st : GoDate) : Option Int :=
  if st.month < 1 ∨ st.month > 12 then none
  else if st.day < 1 ∨ st.day > daysInMonth st.year st.month then none
  else if st.isHour12 ∧ st.hour > 12 then none
  else
    let h :=
      match st.pm with
      | some true => if st.hour < 12 then st.hour + 12 else st.hour
      | some false => if st.hour = 12 then 0 else st.hour
      | none => st.hour
    if h ≥ 24 ∨ st.minute ≥ 60 ∨ st.second ≥ 60 then none
    else
      some (daysFromCivil st.year st.month st.day * 86400 +
        (h : Int) * 3600 + st.minute * 60 + st.second - st.tzSec)

/-- Go `time.Parse layout s`, returning the instant. -/
def goTimeParse (layout s : String) : Option Int :=
  (runChunks (layoutChunks layout.data) s.data {}).bind finalizeDate

/-- The fixed layout list shared by `parseDateGuess` (advanced_sort.go)
and `tryParseDate` (advanced_extract.go); the first entry is
`time.RFC3339`. -/
def builtinLayouts : List String :=
  ["2006-01-02T15:04:05Z07:00",
   "2006-01-02 15:04:05",
   "2006-01-02 15:04",
   "2006-01-02",
   "02/01/2006 15:04",
   "01/02/2006 15:04",
   "02/01/2006",
   "01/02/2006",
   "1/2/2006 15:04",
   "2006-01-02 03:04PM",
   "02 Jan 2006 15:04",
   "02 Jan 2006"]

/-- First layout in the list that parses the text wins. -/
def firstParse : List String → String → Option Int
  | [], _ => none
  | L :: ls, t =>
    match goTimeParse L t with
    | some v => some v
    | none => firstParse ls t

/-- `parseDateGuess` from advanced_sort.go: trim, fail on blank, try the
explicit layout if provided, then the fixed layout list in order. -/
def parseDateGuess (s explicitLayout : String) : Option Int :=
  let t := goTrimSpace s
  if t = "" then none
  else
    match (if explicitLayout ≠ "" then goTimeParse explicitLayout t else none) with
    | some v => some v
    | none => firstParse builtinLayouts t

/-- `tryParseDate` from advanced_extract.go: trim, fail on blank, then
try the explicit layout (if provided) followed by the fixed list. -/
def tryParseDate (s explicitLayout : String) : Option Int :=
  let t := goTrimSpace s
  if t = "" then none
  else
    firstParse ((if explicitLayout ≠ "" then [explicitLayout] else []) ++ builtinLayouts) t

/-! ## Go interface values and `fmt.Sprintf "%v"` -/

/-- Pad a numeral string on the left with zeros to 17 characters. -/
def padZeros17 (s : String) : String :=
  ⟨List.replicate (17 - s.length) '0' ++ s.data⟩

/-- Strip trailing zero characters. -/
def stripTrailingZeros (s : String) : String :=
  ⟨(s.data.reverse.dropWhile (fun c => c = '0')).reverse⟩

/-- Go `fmt.Sprintf "%v"` of a `float64`, modelled for the regimes the
code and claims exercise: integral values print as plain decimal
integers, and values with a short finite decimal expansion print as
`intpart.fracpart`.  The scientific-notation regimes of `%g` (very
large or very small magnitudes) and IEEE shortest-representation
rounding are not modelled; no claim depends on them. -/
def goFormatFloat (q : ℚ) : String :=
  if q.den = 1 then toString q.num
  else if (10 ^ 17) % q.den = 0 then
    let n := q.num.natAbs * ((10 ^ 17) / q.den)
    (if q.num < 0 then "-" else "") ++ toString (n / 10 ^ 17) ++ "." ++
      stripTrailingZeros (padZeros17 (toString (n % 10 ^ 17)))
  else toString q.num ++ "/" ++ toString q.den

/-- A Go `interface{}` value as delivered by JSON decoding: `nil`, a
`float64` number, a string, or a slice.  (The Go code also has a
`[]string` case in `stringInList`; it behaves identically to the
`[]interface{}` case for string elements and is subsumed by `list`.) -/
inductive GoValue where
  | nil
  | num (q : ℚ)
  | str (s : String)
  | list (l : List GoValue)

mutual
/-- Go `fmt.Sprintf "%v"`. -/
def fmtValue : GoValue → String
  | .nil => "<nil>"
  | .num q => goFormatFloat q
  | .str s => s
  | .list l => "[" ++ String.intercalate " " (fmtValueList l) ++ "]"

/-- `%v` of each element of a slice. -/
def fmtValueList : List GoValue → List String
  | [] => []
  | v :: vs => fmtValue v :: fmtValueList vs
end

/-! ## `backend/internal/utils/utils.go` -/

/-- `utils.WhitespaceTrimmer`: trim leading/trailing whitespace and
collapse internal whitespace runs (`TrimSpace`, `Fields`, `Join " "`). -/
def WhitespaceTrimmer (s : String) : String :=
  ⟨joinWords (fieldsChars (trimChars s.data))⟩

/-- `types.TableData`. -/
structure TableData where
  hasHeader : Bool
  header : List String
  rows : List (List String)
  deriving Repr, DecidableEq

/-- Index of the first header entry matching the trimmed key
case-insensitively (the loop of `ResolveKeyIndex`). -/
def findHeaderIdx (header : List String) (keyTrim : String) : Option Nat :=
  match header with
  | [] => none
  | h :: rest =>
    if goEqualFold (goTrimSpace h) keyTrim then some 0
    else (findHeaderIdx rest keyTrim).map (fun i => i + 1)

/-- `utils.ResolveKeyIndex`: map a key (header name or numeric index
string) to a column index.  The returned index is an `Int` because the
headerless branch applies no sign check to the `Atoi` result. -/
def ResolveKeyIndex (tbl : TableData) (key : String) : GoOutcome Int :=
  if tbl.hasHeader then
    let keyTrim := goTrimSpace key
    match findHeaderIdx tbl.header keyTrim with
    | some i => .ok i
    | none =>
      match goAtoi key with
      | some idx =>
        if idx < 0 ∨ idx ≥ tbl.header.length then .error "numeric key index out of range"
        else .ok idx
      | none => .error "key not found in header"
  else
    match goAtoi key with
    | some idx => .ok idx
    | none => .error "no header: key must be numeric index string"

/-! ## `advanced_extract.go`: condition evaluation -/

/-- `tryParseNumber`: direct float parse; empty input fails. -/
def tryParseNumber (s : String) : Option ℚ :=
  if s = "" then none else parseGoFloat s

/-- `coerceToBool`: fixed truthy/falsy sets after lowercasing and
trimming; anything else is a coercion failure. -/
def coerceToBool (s : String) : Option Bool :=
  let t := goTrimSpace (goToLower s)
  if t = "true" ∨ t = "1" ∨ t = "yes" ∨ t = "y" ∨ t = "t" then some true
  else if t = "false" ∨ t = "0" ∨ t = "no" ∨ t = "n" ∨ t = "f" then some false
  else none

/-- `stringInList`: membership of `elem` in a list value (each element
formatted with `%v` and optionally trimmed) or, for a non-list value,
in its comma-separated split (each part unconditionally trimmed). -/
def stringInList (elem : String) (listVal : GoValue) (caseInsensitive trim : Bool) : Bool :=
  match listVal with
  | .nil => false
  | .list v =>
    v.any fun it =>
      let its := fmtValue it
      let its := if trim then goTrimSpace its else its
      if caseInsensitive then goEqualFold elem its else elem = its
  | other =>
    let s := fmtValue other
    (goSplitComma s).any fun p =>
      let p := goTrimSpace p
      if caseInsensitive then goEqualFold elem p else elem = p

/-- `Condition`: a single atomic condition. -/
structure Condition where
  column : String
  operator : String
  value : GoValue
  caseInsensitive : Option Bool := none
  trimSpaces : Option Bool := none

/-- `ConditionGroup`: conditions composed with a logical operator. -/
inductive ConditionGroup where
  | mk (op : String) (conds : List Condition) (subgroups : List ConditionGroup)

/-- The group's logical operator. -/
def ConditionGroup.op : ConditionGroup → String
  | .mk o _ _ => o

/-- The group's direct conditions. -/
def ConditionGroup.conds : ConditionGroup → List Condition
  | .mk _ c _ => c

/-- The group's nested subgroups. -/
def ConditionGroup.subgroups : ConditionGroup → List ConditionGroup
  | .mk _ _ s => s

/-- `AdvancedExtractOptions`. -/
structure AdvancedExtractOptions where
  trimSpaces : Bool
  caseInsensitive : Bool
  dateFormat : String
  deriving Repr, DecidableEq

/-- `boolOption`: per-condition override if present, else the global. -/
def boolOption (global : Bool) (per : Option Bool) : Bool :=
  match per with
  | none => global
  | some b => b

/-- Insert into a Go `map[string]int` modelled as an association list:
a later insert of the same key overwrites. -/
def mapInsert (m : List (String × Nat)) (k : String) (v : Nat) : List (String × Nat) :=
  if m.any (fun kv => kv.1 = k) then
    m.map (fun kv => if kv.1 = k then (k, v) else kv)
  else m ++ [(k, v)]

/-- Lookup in the association-list map. -/
def mapLookup (m : List (String × Nat)) (k : String) : Option Nat :=
  (m.find? (fun kv => kv.1 = k)).map (fun kv => kv.2)

/-- The `headerMap` built by `AdvancedExtract`: lowercased, trimmed
header names to positions (later duplicates overwrite). -/
def buildHeaderMap (header : List String) : List (String × Nat) :=
  header.enum.foldl (fun m ih => mapInsert m (goToLower (goTrimSpace ih.2)) ih.1) []

/-- Add a column name to the collected set if absent (the Go code uses
a `map[string]struct{}`; only membership is observable, plus which
missing column an error names — the model keeps insertion order). -/
def insertIfAbsent (l : List String) (s : String) : List String :=
  if s ∈ l then l else l ++ [s]

mutual
/-- `gatherColumnsFromGroup`: collect every (lowercased, trimmed,
non-empty) column name referenced in the tree. -/
def gatherColumnsFromGroup (g : ConditionGroup) (cols : List String) : List String :=
  match g with
  | .mk _ conds subs =>
    let cols := conds.foldl
      (fun a c =>
        let key := goToLower (goTrimSpace c.column)
        if key ≠ "" then insertIfAbsent a key else a) cols
    gatherColumnsList subs cols

/-- Fold `gatherColumnsFromGroup` over a list of subgroups. -/
def gatherColumnsList (gs : List ConditionGroup) (cols : List String) : List String :=
  match gs with
  | [] => cols
  | g :: rest => gatherColumnsList rest (gatherColumnsFromGroup g cols)
end

/-- The cell fetched for a condition: out-of-range index reads as
empty (the index comes from the header map, hence is non-negative). -/
def fetchCell (idx : Nat) (row : List String) : String :=
  if idx < row.length then row.getD idx "" else ""

/-- The `equals` comparison of `evalCondition`: numeric equality when
the condition value is a number (a non-numeric cell is `false`),
otherwise string comparison of the formatted value. -/
def evalEquals (value : GoValue) (cell : String) (trim ci : Bool) : Bool :=
  match value with
  | .num v =>
    match tryParseNumber cell with
    | some n => decide (n = v)
    | none => false
  | other =>
    let vstr := fmtValue other
    let vstr := if trim then goTrimSpace vstr else vstr
    if ci then goEqualFold cell vstr else cell = vstr

/-- The `contains` test of `evalCondition`. -/
def evalContains (value : GoValue) (cell : String) (trim ci : Bool) : Bool :=
  let vstr := fmtValue value
  let vstr := if trim then goTrimSpace vstr else vstr
  if ci then goContains (goToLower cell) (goToLower vstr) else goContains cell vstr

/-- Numeric comparison dispatch for the `gt`/`gte`/`lt`/`lte` family. -/
def cmpFloat (op : String) (c v : ℚ) : Bool :=
  match op with
  | "gt" => decide (c > v)
  | "gte" => decide (c ≥ v)
  | "lt" => decide (c < v)
  | "lte" => decide (c ≤ v)
  | _ => false

/-- Date comparison dispatch for the `gt`/`gte`/`lt`/`lte` family
(`After`/`Equal`/`Before` on instants). -/
def cmpDate (op : String) (t1 t2 : Int) : Bool :=
  match op with
  | "gt" => decide (t1 > t2)
  | "gte" => decide (t1 > t2 ∨ t1 = t2)
  | "lt" => decide (t1 < t2)
  | "lte" => decide (t1 < t2 ∨ t1 = t2)
  | _ => false

/-- The `gt`/`gte`/`lt`/`lte` branch of `evalCondition` (source lines
307-377): a `float64` condition value forces a numeric comparison and
yields `false` on a non-numeric cell; otherwise the formatted value is
tried as a number (with numeric cell compare, then a date-vs-date
fallback), and finally both sides are tried as dates.  The last
fallback re-formats the value without trimming, as the source does. -/
def gtFamily (op : String) (value : GoValue) (cell : String) (trim : Bool)
    (dateFormat : String) : Bool :=
  match value with
  | .num v =>
    match tryParseNumber cell with
    | some c => cmpFloat op c v
    | none => false
  | other =>
    let vstr := fmtValue other
    let vstr := if trim then goTrimSpace vstr else vstr
    match parseGoFloat vstr with
    | some vnum =>
      match tryParseNumber cell with
      | some c => cmpFloat op c vnum
      | none =>
        match tryParseDate cell dateFormat, tryParseDate vstr dateFormat with
        | some t1, some t2 => cmpDate op t1 t2
        | _, _ => false
    | none =>
      match tryParseDate cell dateFormat with
      | some t1 =>
        if fmtValue other ≠ "" then
          match tryParseDate (fmtValue other) dateFormat with
          | some t2 => cmpDate op t1 t2
          | none => false
        else false
      | none => false

/-- Regexp metacharacters. -/
def regexpMeta : List Char :=
  ['.', '*', '+', '?', '(', ')', '[', ']', '^', '$', '|', '\\', '\x7b', '\x7d']

/-- Models Go `regexp.Compile` success, restricted to patterns without
metacharacters; no claim below exercises regular-expression semantics,
this only fixes a concrete total behaviour for the `matches` branch. -/
def regexpCompileOk (pat : String) : Bool :=
  pat.data.all (fun c => ¬ c ∈ regexpMeta)

/-- Models Go `regexp.MatchString` for the metacharacter-free patterns
accepted by `regexpCompileOk`: substring containment. -/
def regexpMatch (pat s : String) : Bool :=
  goContains s pat

/-- `evalCondition`: evaluate one condition against a row.  The
source's `not_equals`/`not_contains` branches recursively re-invoke
`evalCondition` with the positive operator on the same column, value
and overrides — which recomputes the same index, flags and cell — and
discard the (unreachable) error of the inner call; the recursion is
unfolded here into the shared `evalEquals`/`evalContains` helpers. -/
def evalCondition (cond : Condition) (row : List String)
    (headerMap : List (String × Nat)) (globalOptions : AdvancedExtractOptions) :
    GoOutcome Bool :=
  match mapLookup headerMap (goToLower (goTrimSpace cond.column)) with
  | none => .error ("column '" ++ cond.column ++ "' not found in dataset")
  | some idx =>
    let trim := boolOption globalOptions.trimSpaces cond.trimSpaces
    let ci := boolOption globalOptions.caseInsensitive cond.caseInsensitive
    let cell0 := fetchCell idx row
    let cell := if trim then WhitespaceTrimmer cell0 else cell0
    match cond.operator with
    | "equals" => .ok (evalEquals cond.value cell trim ci)
    | "not_equals" => .ok (! evalEquals cond.value cell trim ci)
    | "contains" => .ok (evalContains cond.value cell trim ci)
    | "not_contains" => .ok (! evalContains cond.value cell trim ci)
    | "starts_with" =>
      let vstr := fmtValue cond.value
      let vstr := if trim then goTrimSpace vstr else vstr
      .ok (if ci then goHasPrefix (goToLower cell) (goToLower vstr)
        else goHasPrefix cell vstr)
    | "ends_with" =>
      let vstr := fmtValue cond.value
      let vstr := if trim then goTrimSpace vstr else vstr
      .ok (if ci then goHasSuffix (goToLower cell) (goToLower vstr)
        else goHasSuffix cell vstr)
    | "in" =>
      let elem := if trim then goTrimSpace cell else cell
      .ok (stringInList elem cond.value ci trim)
    | "not_in" => .ok (! stringInList cell cond.value ci trim)
    | "gt" => .ok (gtFamily "gt" cond.value cell trim globalOptions.dateFormat)
    | "gte" => .ok (gtFamily "gte" cond.value cell trim globalOptions.dateFormat)
    | "lt" => .ok (gtFamily "lt" cond.value cell trim globalOptions.dateFormat)
    | "lte" => .ok (gtFamily "lte" cond.value cell trim globalOptions.dateFormat)
    | "date_after" =>
      let vstr := fmtValue cond.value
      let vstr := if trim then goTrimSpace vstr else vstr
      .ok (match tryParseDate cell globalOptions.dateFormat,
          tryParseDate vstr globalOptions.dateFormat with
        | some t1, some t2 => decide (t1 > t2)
        | _, _ => false)
    | "date_before" =>
      let vstr := fmtValue cond.value
      let vstr := if trim then goTrimSpace vstr else vstr
      .ok (match tryParseDate cell globalOptions.dateFormat,
          tryParseDate vstr globalOptions.dateFormat with
        | some t1, some t2 => decide (t1 < t2)
        | _, _ => false)
    | "is_true" =>
      .ok (match coerceToBool cell with
        | some b => b
        | none => false)
    | "is_false" =>
      .ok (match coerceToBool cell with
        | some b => ! b
        | none => false)
    | "is_null" => .ok (goTrimSpace cell = "")
    | "is_not_null" => .ok (goTrimSpace cell ≠ "")
    | "matches" =>
      let pat := fmtValue cond.value
      let pat := if trim then goTrimSpace pat else pat
      if regexpCompileOk pat then .ok (regexpMatch pat cell)
      else .error "invalid regex in matches"
    | _ => .error ("unsupported operator: " ++ cond.operator)

mutual
/-- `evalGroup`: recursive evaluation of a condition group.  `and`
short-circuits on the first failure, `or` on the first success; direct
conditions are evaluated before subgroups; an invalid group operator
is an error. -/
def evalGroup (g : ConditionGroup) (row : List String)
    (headerMap : List (String × Nat)) (globalOptions : AdvancedExtractOptions) :
    GoOutcome Bool :=
  match g with
  | .mk op0 conds subs =>
    let op := goToLower (goTrimSpace op0)
    if op ≠ "and" ∧ op ≠ "or" then .error ("invalid group op: " ++ op0)
    else if op = "and" then
      match evalCondsAnd conds row headerMap globalOptions with
      | .ok true => evalSubsAnd subs row headerMap globalOptions
      | other => other
    else
      match evalCondsOr conds row headerMap globalOptions with
      | .ok false => evalSubsOr subs row headerMap globalOptions
      | other => other

/-- Conjunction over direct conditions (short-circuit). -/
def evalCondsAnd (conds : List Condition) (row : List String)
    (headerMap : List (String × Nat)) (globalOptions : AdvancedExtractOptions) :
    GoOutcome Bool :=
  match conds with
  | [] => .ok true
  | c :: rest =>
    match evalCondition c row headerMap globalOptions with
    | .ok true => evalCondsAnd rest row headerMap globalOptions
    | .ok false => .ok false
    | .error e => .error e
    | .panic => .panic

/-- Conjunction over subgroups (short-circuit). -/
def evalSubsAnd (gs : List ConditionGroup) (row : List String)
    (headerMap : List (String × Nat)) (globalOptions : AdvancedExtractOptions) :
    GoOutcome Bool :=
  match gs with
  | [] => .ok true
  | g :: rest =>
    match evalGroup g row headerMap globalOptions with
    | .ok true => evalSubsAnd rest row headerMap globalOptions
    | .ok false => .ok false
    | .error e => .error e
    | .panic => .panic

/-- Disjunction over direct conditions (short-circuit). -/
def evalCondsOr (conds : List Condition) (row : List String)
    (headerMap : List (String × Nat)) (globalOptions : AdvancedExtractOptions) :
    GoOutcome Bool :=
  match conds with
  | [] => .ok false
  | c :: rest =>
    match evalCondition c row headerMap globalOptions with
    | .ok false => evalCondsOr rest row headerMap globalOptions
    | .ok true => .ok true
    | .error e => .error e
    | .panic => .panic

/-- Disjunction over subgroups (short-circuit). -/
def evalSubsOr (gs : List ConditionGroup) (row : List String)
    (headerMap : List (String × Nat)) (globalOptions : AdvancedExtractOptions) :
    GoOutcome Bool :=
  match gs with
  | [] => .ok false
  | g :: rest =>
    match evalGroup g row headerMap globalOptions with
    | .ok false => evalSubsOr rest row headerMap globalOptions
    | .ok true => .ok true
    | .error e => .error e
    | .panic => .panic
end

/-! ## `advanced_extract.go`: `AdvancedExtract` and pagination -/

/-- `PaginationOptions`. -/
structure PaginationOptions where
  limit : Int := 0
  offset : Int := 0
  deriving Repr, DecidableEq

/-- `AdvancedExtractRequest`. -/
structure AdvancedExtractRequest where
  operation : String
  options : AdvancedExtractOptions
  dataset : TableData
  filter : ConditionGroup
  pagination : PaginationOptions

/-- The counts of `types.ResultSummary` (elapsed time not modelled). -/
structure ResultSummary where
  processed : Int
  matched : Int
  missing : Int
  deriving Repr, DecidableEq

/-- `AdvancedExtractResponse` (error field folded into `GoOutcome`). -/
structure AdvancedExtractResponse where
  operation : String
  summary : ResultSummary
  result : TableData
  deriving Repr, DecidableEq

/-- Go slice expression `l[lo:hi]`: panics when the bounds are not
`0 ≤ lo ≤ hi ≤ len l`. -/
def goSlice (l : List (List String)) (lo hi : Int) : GoOutcome (List (List String)) :=
  if 0 ≤ lo ∧ lo ≤ hi ∧ hi ≤ l.length then .ok ((l.take hi.toNat).drop lo.toNat)
  else .panic

/-- Reduce an integer to the 64-bit two's-complement range
`[-2^63, 2^63)`, as Go's wrapping `int` arithmetic does. -/
def wrap64 (x : Int) : Int :=
  (x + 9223372036854775808) % 18446744073709551616 - 9223372036854775808

/-- The pagination block of `AdvancedExtract` (source lines 530-547):
non-positive limit means everything, offset clamped to
`[0, len matchedRows]`, end bound clamped to `len matchedRows`, then a
Go slice.  The offset and limit are Go 64-bit ints; the one operation
that can leave the representable range is the addition
`end := offset + limit`, modelled with wrapping `wrap64` (the clamps
and comparisons are order operations on in-range values). -/
def pageSlice (matchedRows : List (List String)) (offset0 limit0 : Int) :
    GoOutcome (List (List String)) :=
  let limit := if limit0 ≤ 0 then (matchedRows.length : Int) else limit0
  let offset := if offset0 < 0 then 0 else offset0
  let offset := if offset > matchedRows.length then (matchedRows.length : Int) else offset
  let e := wrap64 (offset + limit)
  let e := if e > matchedRows.length then (matchedRows.length : Int) else e
  goSlice matchedRows offset e

/-- The row loop of `AdvancedExtract`: evaluate the filter on each row
in order, collecting matches; an evaluation error aborts the whole
request. -/
def filterRows (filter : ConditionGroup) (rows : List (List String))
    (headerMap : List (String × Nat)) (opts : AdvancedExtractOptions) :
    GoOutcome (List (List String)) :=
  match rows with
  | [] => .ok []
  | r :: rest =>
    match evalGroup filter r headerMap opts with
    | .error e => .error e
    | .panic => .panic
    | .ok keep =>
      match filterRows filter rest headerMap opts with
      | .ok ms => .ok (if keep then r :: ms else ms)
      | other => other

/-- `AdvancedExtract`: build the header map, eagerly validate every
referenced filter column against it, filter the rows, then paginate.
(The `Rows == nil` presence check distinguishing a JSON-absent dataset
from an empty one is not modelled — a Lean list has no `nil`/empty
distinction and no claim depends on it; elapsed time is likewise
omitted from the summary.) -/
def AdvancedExtract (req : AdvancedExtractRequest) : GoOutcome AdvancedExtractResponse :=
  let headerMap := buildHeaderMap req.dataset.header
  let cols := gatherColumnsFromGroup req.filter []
  match cols.find? (fun c => (mapLookup headerMap c).isNone) with
  | some c =>
    .error ("filter column '" ++ c ++ "' not found in dataset. available headers: [" ++
      String.intercalate ", " req.dataset.header ++ "]")
  | none =>
    match filterRows req.filter req.dataset.rows headerMap req.options with
    | .error e => .error e
    | .panic => .panic
    | .ok matchedRows =>
      match pageSlice matchedRows req.pagination.offset req.pagination.limit with
      | .error e => .error e
      | .panic => .panic
      | .ok pagedRows =>
        .ok { operation := req.operation,
              summary := { processed := req.dataset.rows.length,
                           matched := matchedRows.length,
                           missing := (req.dataset.rows.length : Int) - matchedRows.length },
              result := { hasHeader := req.dataset.hasHeader,
                          header := req.dataset.header,
                          rows := pagedRows } }

/-! ## `advanced_sort.go`: sort keys and the comparator -/

/-- `tryParseFloat` (advanced_sort.go): blank input fails; otherwise
remove commas and parse; on failure parse the first whitespace field —
indexing `Fields(clean)[0]`, which panics when `clean` has no fields. -/
def tryParseFloat (s : String) : GoOutcome (ℚ × Bool) :=
  if goTrimSpace s = "" then .ok (0, false)
  else
    let clean := removeCommas s
    match parseGoFloat clean with
    | some f => .ok (f, true)
    | none =>
      match (goFields clean).head? with
      | none => .panic
      | some tok =>
        match parseGoFloat tok with
        | some f => .ok (f, true)
        | none => .ok (0, false)

/-- `AdvancedSortOptions` (`SortMode`/`SortOrder` are string types). -/
structure AdvancedSortOptions where
  mode : String
  order : String
  key : String
  trimSpaces : Bool
  caseInsensitive : Bool
  dateFormat : String
  deriving Repr, DecidableEq

/-- `rowWrap`: a row with its extracted sort key; zero values as Go. -/
structure RowWrap where
  row : List String
  alphaKey : String := ""
  numKey : ℚ := 0
  numOk : Bool := false
  dateKey : Int := 0
  dateOk : Bool := false
  deriving Repr, DecidableEq

/-- The key-cell fetch of `sortSingleTable`:
`cell := ""; if idx < len(r) { cell = r[idx] }` — a negative resolved
index panics here on any row. -/
def keyCellFetch (idx : Int) (r : List String) : GoOutcome String :=
  if idx < (r.length : Int) then
    if 0 ≤ idx then .ok (r.getD idx.toNat "") else .panic
  else .ok ""

/-- Build the `rowWrap` for one row: fetch the key cell, trim if
requested, then derive the mode's key. -/
def buildWrap (opts : AdvancedSortOptions) (idx : Int) (r : List String) :
    GoOutcome RowWrap :=
  match keyCellFetch idx r with
  | .error e => .error e
  | .panic => .panic
  | .ok cell0 =>
    let cell := if opts.trimSpaces then goTrimSpace cell0 else cell0
    match opts.mode with
    | "alphabetical" =>
      .ok { row := r, alphaKey := if opts.caseInsensitive then goToLower cell else cell }
    | "numeric" =>
      match tryParseFloat cell with
      | .error e => .error e
      | .panic => .panic
      | .ok (v, ok) => .ok { row := r, numKey := v, numOk := ok }
    | "date" =>
      match parseDateGuess cell opts.dateFormat with
      | some t => .ok { row := r, dateKey := t, dateOk := true }
      | none => .ok { row := r, dateOk := false }
    | _ => .ok { row := r }

/-- Map a fallible Go computation over a list, propagating failure. -/
def mapGo (f : α → GoOutcome β) : List α → GoOutcome (List β)
  | [] => .ok []
  | a :: rest =>
    match f a with
    | .error e => .error e
    | .panic => .panic
    | .ok b =>
      match mapGo f rest with
      | .ok bs => .ok (b :: bs)
      | other => other

/-- The comparator's raw-cell read `if idx < len(row) { ... }`.  The
source guards only `idx < len`; a negative index cannot reach the
comparator because key extraction already panicked on it, so the model
reads the guarded cell and returns `""` otherwise. -/
def cmpCellAt (idx : Int) (r : List String) : String :=
  if 0 ≤ idx ∧ idx < (r.length : Int) then r.getD idx.toNat "" else ""

/-- The both-keys-invalid fallback of the numeric/date comparator:
alphabetical compare of the raw key cells, trimmed and lowercased only
when `CaseInsensitive` is set, honoring the direction. -/
def fallbackAlpha (opts : AdvancedSortOptions) (idx : Int) (a b : RowWrap)
    (asc : Bool) : Bool :=
  let ai := cmpCellAt idx a.row
  let bi := cmpCellAt idx b.row
  let ai := if opts.caseInsensitive then goToLower (goTrimSpace ai) else ai
  let bi := if opts.caseInsensitive then goToLower (goTrimSpace bi) else bi
  if asc then goStrLt ai bi else goStrLt bi ai

/-- The comparator passed to `sort.SliceStable` (source lines 155-257). -/
def lessWrap (opts : AdvancedSortOptions) (idx : Int) (a b : RowWrap) : Bool :=
  let asc := opts.order = "asc"
  match opts.mode with
  | "alphabetical" =>
    if a.alphaKey = b.alphaKey then false
    else if asc then goStrLt a.alphaKey b.alphaKey
    else goStrLt b.alphaKey a.alphaKey
  | "numeric" =>
    if a.numOk && b.numOk then
      if a.numKey = b.numKey then false
      else if asc then decide (a.numKey < b.numKey)
      else decide (b.numKey < a.numKey)
    else if a.numOk && ! b.numOk then asc
    else if ! a.numOk && b.numOk then ! asc
    else fallbackAlpha opts idx a b asc
  | "date" =>
    if a.dateOk && b.dateOk then
      if a.dateKey = b.dateKey then false
      else if asc then decide (a.dateKey < b.dateKey)
      else decide (b.dateKey < a.dateKey)
    else if a.dateOk && ! b.dateOk then asc
    else if ! a.dateOk && b.dateOk then ! asc
    else fallbackAlpha opts idx a b asc
  | _ =>
    let ai := cmpCellAt idx a.row
    let bi := cmpCellAt idx b.row
    if asc then goStrLt ai bi else goStrLt bi ai

/-- Stable insertion of `a` into `l`: `a` is placed before the first
element not strictly less than it. -/
def insertStable (less : α → α → Bool) (a : α) : List α → List α
  | [] => [a]
  | x :: xs => if less x a then x :: insertStable less a xs else a :: x :: xs

/-- `sort.SliceStable` modelled as stable insertion sort; for a
comparator that is a strict weak order — as every comparator of
`sortSingleTable` is — this is the unique stable sorted order Go
produces. -/
def sliceStable (less : α → α → Bool) : List α → List α
  | [] => []
  | x :: xs => insertStable less x (sliceStable less xs)

/-- `sortSingleTable`: resolve the key, derive per-row sort keys
(copying rows), stably sort by the mode's comparator, and rebuild the
table; also returns the processed row count. -/
def sortSingleTable (tbl : TableData) (opts : AdvancedSortOptions) :
    GoOutcome (TableData × Nat) :=
  match ResolveKeyIndex tbl opts.key with
  | .error e => .error ("key resolution: " ++ e)
  | .panic => .panic
  | .ok idx =>
    let rows := tbl.rows
    let processed := rows.length
    match mapGo (buildWrap opts idx) rows with
    | .error e => .error e
    | .panic => .panic
    | .ok wrapped =>
      let sorted := sliceStable (lessWrap opts idx) wrapped
      .ok ({ hasHeader := tbl.hasHeader, header := tbl.header,
             rows := sorted.map (fun w => w.row) }, processed)

/-! ## Generic facts about the stable sort -/

theorem insertStable_mem (less : α → α → Bool) (a : α) (l : List α) (x : α) :
    x ∈ insertStable less a l ↔ x = a ∨ x ∈ l := by
  induction l with
  | nil => simp [insertStable]
  | cons y ys ih =>
    simp only [insertStable]
    by_cases h : less y a
    · simp [h, ih]
      tauto
    · simp [h]

theorem insertStable_perm (less : α → α → Bool) (a : α) (l : List α) :
    (insertStable less a l).Perm (a :: l) := by
  induction l with
  | nil => simp [insertStable]
  | cons y ys ih =>
    simp only [insertStable]
    by_cases h : less y a
    · simp only [h, if_true]
      exact (ih.cons y).trans (List.Perm.swap a y ys)
    · simp [h]

theorem sliceStable_perm (less : α → α → Bool) (l : List α) :
    (sliceStable less l).Perm l := by
  induction l with
  | nil => simp [sliceStable]
  | cons x xs ih =>
    exact (insertStable_perm less x (sliceStable less xs)).trans (ih.cons x)

/-- Inserting preserves the "every `p` element before every non-`p`
element" invariant, provided the comparator strictly separates `p`
elements from non-`p` elements. -/
theorem insertStable_pairwise_flag {p : α → Bool} {less : α → α → Bool}
    (H : ∀ a b, p a = true → p b = false → less a b = true ∧ less b a = false)
    (a : α) (l : List α)
    (hl : l.Pairwise (fun x y => p y = true → p x = true)) :
    (insertStable less a l).Pairwise (fun x y => p y = true → p x = true) := by
  induction l with
  | nil => simp [insertStable]
  | cons x xs ih =>
    rcases List.pairwise_cons.mp hl with ⟨hx, hxs⟩
    simp only [insertStable]
    by_cases h : less x a
    · simp only [h, if_true]
      refine List.pairwise_cons.mpr ⟨?_, ih hxs⟩
      intro y hy
      rcases (insertStable_mem less a xs y).mp hy with heq | hy'
      · subst heq
        intro hpa
        by_contra hpx
        have hpx' : p x = false := Bool.eq_false_iff.mpr hpx
        have := (H y x hpa hpx').2
        simp [this] at h
      · exact hx y hy'
    · simp only [h, if_false]
      refine List.pairwise_cons.mpr ⟨?_, hl⟩
      intro y hy hpy
      by_contra hpa
      have hpa' : p a = false := Bool.eq_false_iff.mpr hpa
      have hpx : p x = true := by
        rcases List.mem_cons.mp hy with rfl | hy'
        · exact hpy
        · exact hx y hy' hpy
      have := (H x a hpx hpa').1
      simp [this] at h

theorem sliceStable_pairwise_flag {p : α → Bool} {less : α → α → Bool}
    (H : ∀ a b, p a = true → p b = false → less a b = true ∧ less b a = false)
    (l : List α) :
    (sliceStable less l).Pairwise (fun x y => p y = true → p x = true) := by
  induction l with
  | nil => simp [sliceStable]
  | cons x xs ih => exact insertStable_pairwise_flag H x _ ih

/-- Inserting preserves sortedness (no strict inversion), for an
asymmetric, negatively transitive comparator. -/
theorem insertStable_pairwise_sorted {less : α → α → Bool}
    (H1 : ∀ a b, less a b = true → less b a = false)
    (H2 : ∀ a b c, less a b = false → less b c = false → less a c = false)
    (a : α) (l : List α)
    (hl : l.Pairwise (fun x y => less y x = false)) :
    (insertStable less a l).Pairwise (fun x y => less y x = false) := by
  induction l with
  | nil => simp [insertStable]
  | cons x xs ih =>
    rcases List.pairwise_cons.mp hl with ⟨hx, hxs⟩
    simp only [insertStable]
    by_cases h : less x a
    · simp only [h, if_true]
      refine List.pairwise_cons.mpr ⟨?_, ih hxs⟩
      intro y hy
      rcases (insertStable_mem less a xs y).mp hy with rfl | hy'
      · exact H1 x y h
      · exact hx y hy'
    · simp only [h, if_false]
      have h' : less x a = false := Bool.eq_false_iff.mpr h
      refine List.pairwise_cons.mpr ⟨?_, hl⟩
      intro y hy
      rcases List.mem_cons.mp hy with rfl | hy'
      · exact h'
      · exact H2 y x a (hx y hy') h'

theorem sliceStable_pairwise_sorted {less : α → α → Bool}
    (H1 : ∀ a b, less a b = true → less b a = false)
    (H2 : ∀ a b c, less a b = false → less b c = false → less a c = false)
    (l : List α) :
    (sliceStable less l).Pairwise (fun x y => less y x = false) := by
  induction l with
  | nil => simp [sliceStable]
  | cons x xs ih => exact insertStable_pairwise_sorted H1 H2 x _ ih

theorem listLtChars_asymm : ∀ l1 l2, listLtChars l1 l2 = true → listLtChars l2 l1 = false := by
  intro l1
  induction l1 with
  | nil =>
    intro l2 h
    cases l2 with
    | nil => cases h
    | cons b bs => rfl
  | cons a as1 ih =>
    intro l2 h
    cases l2 with
    | nil => cases h
    | cons b bs =>
      unfold listLtChars at h ⊢
      by_cases h1 : a.toNat < b.toNat
      · have h2 : ¬ b.toNat < a.toNat := by omega
        simp [h1, h2]
      · by_cases h2 : b.toNat < a.toNat
        · rw [if_neg h1, if_pos h2] at h
          cases h
        · rw [if_neg h1, if_neg h2] at h
          rw [if_neg h2, if_neg h1]
          exact ih bs h

theorem listLtChars_negtrans :
    ∀ l1 l2 l3, listLtChars l1 l2 = false → listLtChars l2 l3 = false →
      listLtChars l1 l3 = false := by
  intro l1
  induction l1 with
  | nil =>
    intro l2 l3 h12 h23
    cases l3 with
    | nil => rfl
    | cons c cs =>
      cases l2 with
      | nil => cases h23
      | cons b bs => cases h12
  | cons a as1 ih =>
    intro l2 l3 h12 h23
    cases l3 with
    | nil => rfl
    | cons c cs =>
      cases l2 with
      | nil => cases h23
      | cons b bs =>
        unfold listLtChars at h12 h23 ⊢
        by_cases hab : a.toNat < b.toNat
        · rw [if_pos hab] at h12
          cases h12
        · by_cases hbc : b.toNat < c.toNat
          · rw [if_pos hbc] at h23
            cases h23
          · have hac : ¬ a.toNat < c.toNat := by omega
            rw [if_neg hac]
            by_cases hca : c.toNat < a.toNat
            · rw [if_pos hca]
            · rw [if_neg hca]
              have hba : ¬ b.toNat < a.toNat := by omega
              have hcb : ¬ c.toNat < b.toNat := by omega
              rw [if_neg hab, if_neg hba] at h12
              rw [if_neg hbc, if_neg hcb] at h23
              exact ih bs cs h12 h23

theorem goStrLt_asymm {a b : String} (h : goStrLt a b = true) : goStrLt b a = false :=
  listLtChars_asymm a.data b.data h

theorem goStrLt_negtrans {a b c : String} (h1 : goStrLt a b = false)
    (h2 : goStrLt b c = false) : goStrLt a c = false :=
  listLtChars_negtrans a.data b.data c.data h1 h2

/-! ## Facts about `sortSingleTable` -/

/-- Whether a row's sort-key cell coerces under the requested mode:
the `numOk`/`dateOk` flag `sortSingleTable` derives for the row. -/
def keyCoerces (opts : AdvancedSortOptions) (idx : Int) (r : List String) : Bool :=
  let cell := cmpCellAt idx r
  let cell := if opts.trimSpaces then goTrimSpace cell else cell
  match opts.mode with
  | "numeric" =>
    match tryParseFloat cell with
    | .ok (_, ok) => ok
    | _ => false
  | "date" => (parseDateGuess cell opts.dateFormat).isSome
  | _ => false

theorem keyCellFetch_ok_inv {idx : Int} {r : List String} {c : String}
    (h : keyCellFetch idx r = .ok c) : c = cmpCellAt idx r := by
  unfold keyCellFetch at h
  unfold cmpCellAt
  by_cases h1 : idx < (r.length : Int)
  · by_cases h2 : 0 ≤ idx
    · rw [if_pos h1, if_pos h2] at h
      injection h with h
      rw [if_pos ⟨h2, h1⟩, ← h]
    · rw [if_pos h1, if_neg h2] at h
      cases h
  · rw [if_neg h1] at h
    injection h with h
    have hn : ¬ (0 ≤ idx ∧ idx < (r.length : Int)) := fun hc => h1 hc.2
    rw [if_neg hn, ← h]

theorem buildWrap_row {opts : AdvancedSortOptions} {idx : Int} {r : List String}
    {w : RowWrap} (h : buildWrap opts idx r = .ok w) : w.row = r := by
  unfold buildWrap at h
  cases hf : keyCellFetch idx r with
  | error e => rw [hf] at h; cases h
  | panic => rw [hf] at h; cases h
  | ok cell0 =>
    rw [hf] at h
    simp only at h
    split at h
    · cases h; rfl
    · split at h
      · cases h
      · cases h
      · cases h; rfl
    · split at h
      · cases h; rfl
      · cases h; rfl
    · cases h; rfl

theorem buildWrap_numOk {opts : AdvancedSortOptions} {idx : Int} {r : List String}
    {w : RowWrap} (hmode : opts.mode = "numeric")
    (h : buildWrap opts idx r = .ok w) : w.numOk = keyCoerces opts idx r := by
  unfold buildWrap at h
  cases hf : keyCellFetch idx r with
  | error e => rw [hf] at h; cases h
  | panic => rw [hf] at h; cases h
  | ok cell0 =>
    have hc : cell0 = cmpCellAt idx r := keyCellFetch_ok_inv hf
    rw [hf] at h
    simp only [hmode] at h
    unfold keyCoerces
    simp only [hmode]
    rw [← hc]
    cases hp : tryParseFloat (if opts.trimSpaces then goTrimSpace cell0 else cell0) with
    | error e => rw [hp] at h; cases h
    | panic => rw [hp] at h; cases h
    | ok vo =>
      rw [hp] at h
      cases h
      rfl

theorem buildWrap_dateOk {opts : AdvancedSortOptions} {idx : Int} {r : List String}
    {w : RowWrap} (hmode : opts.mode = "date")
    (h : buildWrap opts idx r = .ok w) : w.dateOk = keyCoerces opts idx r := by
  unfold buildWrap at h
  cases hf : keyCellFetch idx r with
  | error e => rw [hf] at h; cases h
  | panic => rw [hf] at h; cases h
  | ok cell0 =>
    have hc : cell0 = cmpCellAt idx r := keyCellFetch_ok_inv hf
    rw [hf] at h
    simp only [hmode] at h
    unfold keyCoerces
    simp only [hmode]
    rw [← hc]
    cases hp : parseDateGuess (if opts.trimSpaces then goTrimSpace cell0 else cell0) opts.dateFormat with
    | none => rw [hp] at h; cases h; rfl
    | some t => rw [hp] at h; cases h; rfl

/-- The numeric key value `sortSingleTable` derives for a row (0 when
the coercion fails, as in the Go zero value). -/
def numKeyOf (opts : AdvancedSortOptions) (idx : Int) (r : List String) : ℚ :=
  let cell := cmpCellAt idx r
  let cell := if opts.trimSpaces then goTrimSpace cell else cell
  match tryParseFloat cell with
  | .ok (v, _) => v
  | _ => 0

/-- The date key instant `sortSingleTable` derives for a row (0 when
the coercion fails, as in the Go zero value). -/
def dateKeyOf (opts : AdvancedSortOptions) (idx : Int) (r : List String) : Int :=
  let cell := cmpCellAt idx r
  let cell := if opts.trimSpaces then goTrimSpace cell else cell
  (parseDateGuess cell opts.dateFormat).getD 0

/-- Strict comparison of two rows' derived key values under the mode
(numeric value / date instant). -/
def keyValLt (opts : AdvancedSortOptions) (idx : Int) (r1 r2 : List String) : Bool :=
  match opts.mode with
  | "numeric" => decide (numKeyOf opts idx r1 < numKeyOf opts idx r2)
  | "date" => decide (dateKeyOf opts idx r1 < dateKeyOf opts idx r2)
  | _ => false

/-- The text the failed-keys fallback compares for a row: the raw key
cell, trimmed and lowercased only when `CaseInsensitive` is set. -/
def fallbackText (opts : AdvancedSortOptions) (idx : Int) (r : List String) : String :=
  let ai := cmpCellAt idx r
  if opts.caseInsensitive then goToLower (goTrimSpace ai) else ai

theorem fallbackAlpha_eq (opts : AdvancedSortOptions) (idx : Int) (a b : RowWrap)
    (asc : Bool) :
    fallbackAlpha opts idx a b asc =
      if asc then goStrLt (fallbackText opts idx a.row) (fallbackText opts idx b.row)
      else goStrLt (fallbackText opts idx b.row) (fallbackText opts idx a.row) := rfl

theorem buildWrap_numKey {opts : AdvancedSortOptions} {idx : Int} {r : List String}
    {w : RowWrap} (hmode : opts.mode = "numeric")
    (h : buildWrap opts idx r = .ok w) : w.numKey = numKeyOf opts idx r := by
  unfold buildWrap at h
  cases hf : keyCellFetch idx r with
  | error e => rw [hf] at h; cases h
  | panic => rw [hf] at h; cases h
  | ok cell0 =>
    have hc : cell0 = cmpCellAt idx r := keyCellFetch_ok_inv hf
    rw [hf] at h
    simp only [hmode] at h
    unfold numKeyOf
    rw [← hc]
    cases hp : tryParseFloat (if opts.trimSpaces then goTrimSpace cell0 else cell0) with
    | error e => rw [hp] at h; cases h
    | panic => rw [hp] at h; cases h
    | ok vo =>
      rw [hp] at h
      cases h
      dsimp only
      rw [hp]

theorem buildWrap_dateKey {opts : AdvancedSortOptions} {idx : Int} {r : List String}
    {w : RowWrap} (hmode : opts.mode = "date")
    (h : buildWrap opts idx r = .ok w) : w.dateKey = dateKeyOf opts idx r := by
  unfold buildWrap at h
  cases hf : keyCellFetch idx r with
  | error e => rw [hf] at h; cases h
  | panic => rw [hf] at h; cases h
  | ok cell0 =>
    have hc : cell0 = cmpCellAt idx r := keyCellFetch_ok_inv hf
    rw [hf] at h
    simp only [hmode] at h
    unfold dateKeyOf
    rw [← hc]
    cases hp : parseDateGuess (if opts.trimSpaces then goTrimSpace cell0 else cell0) opts.dateFormat with
    | none => rw [hp] at h; cases h; dsimp only; rw [hp]; rfl
    | some t => rw [hp] at h; cases h; dsimp only; rw [hp]; rfl

theorem mapGo_ok_mem {f : α → GoOutcome β} {l : List α} {bs : List β}
    (h : mapGo f l = .ok bs) : ∀ b ∈ bs, ∃ a ∈ l, f a = .ok b := by
  induction l generalizing bs with
  | nil =>
    unfold mapGo at h
    cases h
    intro b hb
    cases hb
  | cons a rest ih =>
    unfold mapGo at h
    cases hfa : f a with
    | error e => rw [hfa] at h; cases h
    | panic => rw [hfa] at h; cases h
    | ok b0 =>
      rw [hfa] at h
      cases hrest : mapGo f rest with
      | error e => rw [hrest] at h; cases h
      | panic => rw [hrest] at h; cases h
      | ok bs0 =>
        rw [hrest] at h
        cases h
        intro b hb
        rcases List.mem_cons.mp hb with rfl | hb'
        · exact ⟨a, List.mem_cons_self a rest, hfa⟩
        · rcases ih hrest b hb' with ⟨a', ha', hfa'⟩
          exact ⟨a', List.mem_cons_of_mem a ha', hfa'⟩

theorem mapGo_ok_map {f : α → GoOutcome β} {g : β → α} {l : List α} {bs : List β}
    (h : mapGo f l = .ok bs) (hg : ∀ a b, f a = .ok b → g b = a) :
    bs.map g = l := by
  induction l generalizing bs with
  | nil => unfold mapGo at h; cases h; rfl
  | cons a rest ih =>
    unfold mapGo at h
    cases hfa : f a with
    | error e => rw [hfa] at h; cases h
    | panic => rw [hfa] at h; cases h
    | ok b0 =>
      rw [hfa] at h
      cases hrest : mapGo f rest with
      | error e => rw [hrest] at h; cases h
      | panic => rw [hrest] at h; cases h
      | ok bs0 =>
        rw [hrest] at h
        cases h
        simp [hg a b0 hfa, ih hrest]

theorem lessWrap_numeric_sep_asc (opts : AdvancedSortOptions) (idx : Int)
    (hmode : opts.mode = "numeric") (horder : opts.order = "asc") :
    ∀ a b : RowWrap, a.numOk = true → b.numOk = false →
      lessWrap opts idx a b = true ∧ lessWrap opts idx b a = false := by
  intro a b pa pb
  constructor <;> simp [lessWrap, hmode, horder, pa, pb]

theorem lessWrap_numeric_sep_desc (opts : AdvancedSortOptions) (idx : Int)
    (hmode : opts.mode = "numeric") (horder : opts.order ≠ "asc") :
    ∀ a b : RowWrap, a.numOk = false → b.numOk = true →
      lessWrap opts idx a b = true ∧ lessWrap opts idx b a = false := by
  intro a b pa pb
  constructor <;> simp [lessWrap, hmode, horder, pa, pb]

theorem lessWrap_date_sep_asc (opts : AdvancedSortOptions) (idx : Int)
    (hmode : opts.mode = "date") (horder : opts.order = "asc") :
    ∀ a b : RowWrap, a.dateOk = true → b.dateOk = false →
      lessWrap opts idx a b = true ∧ lessWrap opts idx b a = false := by
  intro a b pa pb
  constructor <;> simp [lessWrap, hmode, horder, pa, pb]

theorem lessWrap_date_sep_desc (opts : AdvancedSortOptions) (idx : Int)
    (hmode : opts.mode = "date") (horder : opts.order ≠ "asc") :
    ∀ a b : RowWrap, a.dateOk = false → b.dateOk = true →
      lessWrap opts idx a b = true ∧ lessWrap opts idx b a = false := by
  intro a b pa pb
  constructor <;> simp [lessWrap, hmode, horder, pa, pb]

theorem lessWrap_numeric_asymm (opts : AdvancedSortOptions) (idx : Int)
    (hmode : opts.mode = "numeric") :
    ∀ a b : RowWrap, lessWrap opts idx a b = true → lessWrap opts idx b a = false := by
  intro a b h
  by_cases hor : opts.order = "asc" <;>
    cases ha : a.numOk <;> cases hb : b.numOk <;>
    simp [lessWrap, hmode, ha, hb, hor, fallbackAlpha] at h ⊢ <;>
    first
      | exact goStrLt_asymm h
      | exact fun _ => le_of_lt h.2

theorem lessWrap_numeric_negtrans (opts : AdvancedSortOptions) (idx : Int)
    (hmode : opts.mode = "numeric") :
    ∀ a b c : RowWrap, lessWrap opts idx a b = false → lessWrap opts idx b c = false →
      lessWrap opts idx a c = false := by
  intro a b c h1 h2
  by_cases hor : opts.order = "asc" <;>
    cases ha : a.numOk <;> cases hb : b.numOk <;> cases hc : c.numOk <;>
    simp [lessWrap, hmode, ha, hb, hc, hor, fallbackAlpha] at h1 h2 ⊢ <;>
    first
      | exact goStrLt_negtrans h1 h2
      | exact goStrLt_negtrans h2 h1
      | (intro hne
         by_cases e1 : a.numKey = b.numKey <;> by_cases e2 : b.numKey = c.numKey
         · exact absurd (e1.trans e2) hne
         · rw [e1]; exact h2 e2
         · rw [← e2]; exact h1 e1
         · first
             | exact le_trans (h2 e2) (h1 e1)
             | exact le_trans (h1 e1) (h2 e2))

theorem lessWrap_date_asymm (opts : AdvancedSortOptions) (idx : Int)
    (hmode : opts.mode = "date") :
    ∀ a b : RowWrap, lessWrap opts idx a b = true → lessWrap opts idx b a = false := by
  intro a b h
  by_cases hor : opts.order = "asc" <;>
    cases ha : a.dateOk <;> cases hb : b.dateOk <;>
    simp [lessWrap, hmode, ha, hb, hor, fallbackAlpha] at h ⊢ <;>
    first
      | exact goStrLt_asymm h
      | exact fun _ => le_of_lt h.2

theorem lessWrap_date_negtrans (opts : AdvancedSortOptions) (idx : Int)
    (hmode : opts.mode = "date") :
    ∀ a b c : RowWrap, lessWrap opts idx a b = false → lessWrap opts idx b c = false →
      lessWrap opts idx a c = false := by
  intro a b c h1 h2
  by_cases hor : opts.order = "asc" <;>
    cases ha : a.dateOk <;> cases hb : b.dateOk <;> cases hc : c.dateOk <;>
    simp [lessWrap, hmode, ha, hb, hc, hor, fallbackAlpha] at h1 h2 ⊢ <;>
    first
      | exact goStrLt_negtrans h1 h2
      | exact goStrLt_negtrans h2 h1
      | (intro hne
         by_cases e1 : a.dateKey = b.dateKey <;> by_cases e2 : b.dateKey = c.dateKey
         · exact absurd (e1.trans e2) hne
         · rw [e1]; exact h2 e2
         · rw [← e2]; exact h1 e1
         · first
             | exact le_trans (h2 e2) (h1 e1)
             | exact le_trans (h1 e1) (h2 e2))

/-! ## Claim C1 -/

/-- C1 (amended): for every table and for sort mode `numeric` or
`date`, whenever `sortSingleTable` succeeds, its output is a
permutation of the input rows; in ascending order every row whose key
cell coerces appears before every row whose key fails to coerce, while
in any other (descending) order every failed row appears before every
coerced row — the placement of the failed subset flips with the
direction, contrary to the original claim; and within each subset the
direction independently orders the rows: no later coerced row carries
a key value strictly below (asc) / above (desc) an earlier one, and no
later failed row carries fallback text alphabetically strictly below
(asc) / above (desc) an earlier one. -/
theorem claim_C1_amended (tbl : TableData) (opts : AdvancedSortOptions)
    (hmode : opts.mode = "numeric" ∨ opts.mode = "date")
    (out : TableData) (n : Nat)
    (hok : sortSingleTable tbl opts = .ok (out, n)) :
    ∃ idx, ResolveKeyIndex tbl opts.key = .ok idx ∧
      out.rows.Perm tbl.rows ∧
      (opts.order = "asc" →
        out.rows.Pairwise (fun r1 r2 =>
          keyCoerces opts idx r2 = true → keyCoerces opts idx r1 = true)) ∧
      (opts.order ≠ "asc" →
        out.rows.Pairwise (fun r1 r2 =>
          keyCoerces opts idx r1 = true → keyCoerces opts idx r2 = true)) ∧
      (opts.order = "asc" →
        out.rows.Pairwise (fun r1 r2 =>
          keyCoerces opts idx r1 = true → keyCoerces opts idx r2 = true →
            keyValLt opts idx r2 r1 = false)) ∧
      (opts.order ≠ "asc" →
        out.rows.Pairwise (fun r1 r2 =>
          keyCoerces opts idx r1 = true → keyCoerces opts idx r2 = true →
            keyValLt opts idx r1 r2 = false)) ∧
      (opts.order = "asc" →
        out.rows.Pairwise (fun r1 r2 =>
          keyCoerces opts idx r1 = false → keyCoerces opts idx r2 = false →
            goStrLt (fallbackText opts idx r2) (fallbackText opts idx r1) = false)) ∧
      (opts.order ≠ "asc" →
        out.rows.Pairwise (fun r1 r2 =>
          keyCoerces opts idx r1 = false → keyCoerces opts idx r2 = false →
            goStrLt (fallbackText opts idx r1) (fallbackText opts idx r2) = false)) := by
  unfold sortSingleTable at hok
  cases hres : ResolveKeyIndex tbl opts.key with
  | error e => rw [hres] at hok; cases hok
  | panic => rw [hres] at hok; cases hok
  | ok idx =>
    rw [hres] at hok
    dsimp only at hok
    cases hmap : mapGo (buildWrap opts idx) tbl.rows with
    | error e => rw [hmap] at hok; cases hok
    | panic => rw [hmap] at hok; cases hok
    | ok wrapped =>
      rw [hmap] at hok
      simp only [GoOutcome.ok.injEq, Prod.mk.injEq] at hok
      obtain ⟨hout, hn⟩ := hok
      have hrows : out.rows = (sliceStable (lessWrap opts idx) wrapped).map (fun w => w.row) := by
        rw [← hout]
      have hmemflag : ∀ w ∈ sliceStable (lessWrap opts idx) wrapped,
          (opts.mode = "numeric" → w.numOk = keyCoerces opts idx w.row) ∧
          (opts.mode = "date" → w.dateOk = keyCoerces opts idx w.row) ∧
          (opts.mode = "numeric" → w.numKey = numKeyOf opts idx w.row) ∧
          (opts.mode = "date" → w.dateKey = dateKeyOf opts idx w.row) := by
        intro w hw
        have hw' : w ∈ wrapped := (sliceStable_perm (lessWrap opts idx) wrapped).mem_iff.mp hw
        rcases mapGo_ok_mem hmap w hw' with ⟨r, _, hbw⟩
        have hrow := buildWrap_row hbw
        refine ⟨fun hm => ?_, fun hm => ?_, fun hm => ?_, fun hm => ?_⟩
        · rw [hrow]; exact buildWrap_numOk hm hbw
        · rw [hrow]; exact buildWrap_dateOk hm hbw
        · rw [hrow]; exact buildWrap_numKey hm hbw
        · rw [hrow]; exact buildWrap_dateKey hm hbw
      have master : (sliceStable (lessWrap opts idx) wrapped).Pairwise
          (fun x y => lessWrap opts idx y x = false) := by
        rcases hmode with hm | hm
        · exact sliceStable_pairwise_sorted (lessWrap_numeric_asymm opts idx hm)
            (lessWrap_numeric_negtrans opts idx hm) wrapped
        · exact sliceStable_pairwise_sorted (lessWrap_date_asymm opts idx hm)
            (lessWrap_date_negtrans opts idx hm) wrapped
      refine ⟨idx, rfl, ?_, ?_, ?_, ?_, ?_, ?_, ?_⟩
      · rw [hrows]
        have h1 := (sliceStable_perm (lessWrap opts idx) wrapped).map (fun w => w.row)
        have h2 : wrapped.map (fun w => w.row) = tbl.rows :=
          mapGo_ok_map hmap (fun a b hb => buildWrap_row hb)
        rw [h2] at h1
        exact h1
      · intro horder
        rw [hrows, List.pairwise_map]
        rcases hmode with hm | hm
        · have base := @sliceStable_pairwise_flag RowWrap
            (fun w : RowWrap => w.numOk) (lessWrap opts idx)
            (lessWrap_numeric_sep_asc opts idx hm horder) wrapped
          refine base.imp_of_mem ?_
          intro a b ha hb hab hcb
          have hfa := (hmemflag a ha).1 hm
          have hfb := (hmemflag b hb).1 hm
          rw [← hfa]
          exact hab (by rw [hfb]; exact hcb)
        · have base := @sliceStable_pairwise_flag RowWrap
            (fun w : RowWrap => w.dateOk) (lessWrap opts idx)
            (lessWrap_date_sep_asc opts idx hm horder) wrapped
          refine base.imp_of_mem ?_
          intro a b ha hb hab hcb
          have hfa := (hmemflag a ha).2.1 hm
          have hfb := (hmemflag b hb).2.1 hm
          rw [← hfa]
          exact hab (by rw [hfb]; exact hcb)
      · intro horder
        rw [hrows, List.pairwise_map]
        rcases hmode with hm | hm
        · have base := @sliceStable_pairwise_flag RowWrap
            (fun w : RowWrap => ! w.numOk) (lessWrap opts idx)
            (by
              intro a b pa pb
              have pa' : a.numOk = false := by simpa using pa
              have pb' : b.numOk = true := by simpa using pb
              exact lessWrap_numeric_sep_desc opts idx hm horder a b pa' pb') wrapped
          refine base.imp_of_mem ?_
          intro a b ha hb hab hca
          have hfa := (hmemflag a ha).1 hm
          have hfb := (hmemflag b hb).1 hm
          rw [← hfb]
          have ha' : a.numOk = true := by rw [hfa]; exact hca
          by_contra hbn
          have hb' : (! b.numOk) = true := by
            cases hb2 : b.numOk
            · rfl
            · exact absurd hb2 hbn
          have ha2 := hab hb'
          rw [ha'] at ha2
          simp at ha2
        · have base := @sliceStable_pairwise_flag RowWrap
            (fun w : RowWrap => ! w.dateOk) (lessWrap opts idx)
            (by
              intro a b pa pb
              have pa' : a.dateOk = false := by simpa using pa
              have pb' : b.dateOk = true := by simpa using pb
              exact lessWrap_date_sep_desc opts idx hm horder a b pa' pb') wrapped
          refine base.imp_of_mem ?_
          intro a b ha hb hab hca
          have hfa := (hmemflag a ha).2.1 hm
          have hfb := (hmemflag b hb).2.1 hm
          rw [← hfb]
          have ha' : a.dateOk = true := by rw [hfa]; exact hca
          by_contra hbn
          have hb' : (! b.dateOk) = true := by
            cases hb2 : b.dateOk
            · rfl
            · exact absurd hb2 hbn
          have ha2 := hab hb'
          rw [ha'] at ha2
          simp at ha2
      · intro horder
        rw [hrows, List.pairwise_map]
        refine master.imp_of_mem ?_
        intro a b ha hb hba hca hcb
        rcases hmode with hm | hm
        · have haok : a.numOk = true := by rw [(hmemflag a ha).1 hm]; exact hca
          have hbok : b.numOk = true := by rw [(hmemflag b hb).1 hm]; exact hcb
          have hka := (hmemflag a ha).2.2.1 hm
          have hkb := (hmemflag b hb).2.2.1 hm
          simp [keyValLt, hm]
          rw [← hka, ← hkb]
          simp [lessWrap, hm, haok, hbok, horder] at hba
          by_cases e : b.numKey = a.numKey
          · exact le_of_eq e.symm
          · exact hba e
        · have haok : a.dateOk = true := by rw [(hmemflag a ha).2.1 hm]; exact hca
          have hbok : b.dateOk = true := by rw [(hmemflag b hb).2.1 hm]; exact hcb
          have hka := (hmemflag a ha).2.2.2 hm
          have hkb := (hmemflag b hb).2.2.2 hm
          simp [keyValLt, hm]
          rw [← hka, ← hkb]
          simp [lessWrap, hm, haok, hbok, horder] at hba
          by_cases e : b.dateKey = a.dateKey
          · exact le_of_eq e.symm
          · exact hba e
      · intro horder
        rw [hrows, List.pairwise_map]
        refine master.imp_of_mem ?_
        intro a b ha hb hba hca hcb
        rcases hmode with hm | hm
        · have haok : a.numOk = true := by rw [(hmemflag a ha).1 hm]; exact hca
          have hbok : b.numOk = true := by rw [(hmemflag b hb).1 hm]; exact hcb
          have hka := (hmemflag a ha).2.2.1 hm
          have hkb := (hmemflag b hb).2.2.1 hm
          simp [keyValLt, hm]
          rw [← hka, ← hkb]
          simp [lessWrap, hm, haok, hbok, horder] at hba
          by_cases e : b.numKey = a.numKey
          · exact le_of_eq e
          · exact hba e
        · have haok : a.dateOk = true := by rw [(hmemflag a ha).2.1 hm]; exact hca
          have hbok : b.dateOk = true := by rw [(hmemflag b hb).2.1 hm]; exact hcb
          have hka := (hmemflag a ha).2.2.2 hm
          have hkb := (hmemflag b hb).2.2.2 hm
          simp [keyValLt, hm]
          rw [← hka, ← hkb]
          simp [lessWrap, hm, haok, hbok, horder] at hba
          by_cases e : b.dateKey = a.dateKey
          · exact le_of_eq e
          · exact hba e
      · intro horder
        rw [hrows, List.pairwise_map]
        refine master.imp_of_mem ?_
        intro a b ha hb hba hfa hfb
        rcases hmode with hm | hm
        · have haok : a.numOk = false := by rw [(hmemflag a ha).1 hm]; exact hfa
          have hbok : b.numOk = false := by rw [(hmemflag b hb).1 hm]; exact hfb
          simp [lessWrap, hm, haok, hbok, horder, fallbackAlpha] at hba
          simpa [fallbackText] using hba
        · have haok : a.dateOk = false := by rw [(hmemflag a ha).2.1 hm]; exact hfa
          have hbok : b.dateOk = false := by rw [(hmemflag b hb).2.1 hm]; exact hfb
          simp [lessWrap, hm, haok, hbok, horder, fallbackAlpha] at hba
          simpa [fallbackText] using hba
      · intro horder
        rw [hrows, List.pairwise_map]
        refine master.imp_of_mem ?_
        intro a b ha hb hba hfa hfb
        rcases hmode with hm | hm
        · have haok : a.numOk = false := by rw [(hmemflag a ha).1 hm]; exact hfa
          have hbok : b.numOk = false := by rw [(hmemflag b hb).1 hm]; exact hfb
          simp [lessWrap, hm, haok, hbok, horder, fallbackAlpha] at hba
          simpa [fallbackText] using hba
        · have haok : a.dateOk = false := by rw [(hmemflag a ha).2.1 hm]; exact hfa
          have hbok : b.dateOk = false := by rw [(hmemflag b hb).2.1 hm]; exact hfb
          simp [lessWrap, hm, haok, hbok, horder, fallbackAlpha] at hba
          simpa [fallbackText] using hba

/-- C1 (counterexample): with numeric mode and descending order, the
row whose key cell coerces ("1") appears after the row whose key cell
fails ("a"), refuting the claim that coerced rows always sort before
failed rows regardless of direction. -/
theorem claim_C1_counterexample :
    sortSingleTable ⟨true, ["k"], [["1"], ["a"]]⟩
        ⟨"numeric", "desc", "k", false, false, ""⟩ =
      .ok (⟨true, ["k"], [["a"], ["1"]]⟩, 2) ∧
    tryParseFloat "1" = .ok (1, true) ∧
    tryParseFloat "a" = .ok (0, false) :=
  ⟨rfl, rfl, rfl⟩

/-- C1 (witness): the amended theorem applied to a concrete numeric
ascending sort. -/
theorem claim_C1_witness :
    ∃ idx,
      ResolveKeyIndex ⟨true, ["k"], [["1"], ["a"]]⟩ "k" = .ok idx ∧
      ([["1"], ["a"]] : List (List String)).Perm [["1"], ["a"]] ∧
      (("asc" : String) = "asc" →
        ([["1"], ["a"]] : List (List String)).Pairwise (fun r1 r2 =>
          keyCoerces ⟨"numeric", "asc", "k", false, false, ""⟩ idx r2 = true →
          keyCoerces ⟨"numeric", "asc", "k", false, false, ""⟩ idx r1 = true)) ∧
      (("asc" : String) ≠ "asc" →
        ([["1"], ["a"]] : List (List String)).Pairwise (fun r1 r2 =>
          keyCoerces ⟨"numeric", "asc", "k", false, false, ""⟩ idx r1 = true →
          keyCoerces ⟨"numeric", "asc", "k", false, false, ""⟩ idx r2 = true)) ∧
      (("asc" : String) = "asc" →
        ([["1"], ["a"]] : List (List String)).Pairwise (fun r1 r2 =>
          keyCoerces ⟨"numeric", "asc", "k", false, false, ""⟩ idx r1 = true →
          keyCoerces ⟨"numeric", "asc", "k", false, false, ""⟩ idx r2 = true →
            keyValLt ⟨"numeric", "asc", "k", false, false, ""⟩ idx r2 r1 = false)) ∧
      (("asc" : String) ≠ "asc" →
        ([["1"], ["a"]] : List (List String)).Pairwise (fun r1 r2 =>
          keyCoerces ⟨"numeric", "asc", "k", false, false, ""⟩ idx r1 = true →
          keyCoerces ⟨"numeric", "asc", "k", false, false, ""⟩ idx r2 = true →
            keyValLt ⟨"numeric", "asc", "k", false, false, ""⟩ idx r1 r2 = false)) ∧
      (("asc" : String) = "asc" →
        ([["1"], ["a"]] : List (List String)).Pairwise (fun r1 r2 =>
          keyCoerces ⟨"numeric", "asc", "k", false, false, ""⟩ idx r1 = false →
          keyCoerces ⟨"numeric", "asc", "k", false, false, ""⟩ idx r2 = false →
            goStrLt (fallbackText ⟨"numeric", "asc", "k", false, false, ""⟩ idx r2)
              (fallbackText ⟨"numeric", "asc", "k", false, false, ""⟩ idx r1) = false)) ∧
      (("asc" : String) ≠ "asc" →
        ([["1"], ["a"]] : List (List String)).Pairwise (fun r1 r2 =>
          keyCoerces ⟨"numeric", "asc", "k", false, false, ""⟩ idx r1 = false →
          keyCoerces ⟨"numeric", "asc", "k", false, false, ""⟩ idx r2 = false →
            goStrLt (fallbackText ⟨"numeric", "asc", "k", false, false, ""⟩ idx r1)
              (fallbackText ⟨"numeric", "asc", "k", false, false, ""⟩ idx r2) = false)) :=
  claim_C1_amended ⟨true, ["k"], [["1"], ["a"]]⟩ ⟨"numeric", "asc", "k", false, false, ""⟩
    (Or.inl rfl) ⟨true, ["k"], [["1"], ["a"]]⟩ 2 rfl

/-! ## Claims C5 and C9 (code bugs) -/

/-- C5 (code bug): on a headerless table, `ResolveKeyIndex` accepts the
identifier "-1" — which parses as a negative integer — and returns
index -1 with no error, instead of rejecting it; `sortSingleTable`
then panics on the negative index for any non-empty table. -/
theorem claim_C5_negative_key :
    ResolveKeyIndex ⟨false, [], [["x"]]⟩ "-1" = .ok (-1) ∧
    sortSingleTable ⟨false, [], [["x"]]⟩ ⟨"numeric", "asc", "-1", false, false, ""⟩ =
      .panic :=
  ⟨rfl, rfl⟩

/-- C9 (code bug): `tryParseFloat` is not total — on the non-blank
input ",", removing commas leaves a string with no whitespace fields,
and the source indexes `strings.Fields(clean)[0]`, a runtime panic. -/
theorem claim_C9_tryParseFloat_panics :
    goTrimSpace "," ≠ "" ∧ tryParseFloat "," = .panic ∧ tryParseFloat " , ," = .panic :=
  ⟨by decide, rfl, rfl⟩

/-! ## Claim C6 -/

theorem buildWrap_unknown {opts : AdvancedSortOptions} {idx : Int}
    (hm1 : opts.mode ≠ "alphabetical") (hm2 : opts.mode ≠ "numeric")
    (hm3 : opts.mode ≠ "date") (hidx : 0 ≤ idx) (r : List String) :
    buildWrap opts idx r = .ok { row := r } := by
  have hf : keyCellFetch idx r = .ok (cmpCellAt idx r) := by
    unfold keyCellFetch cmpCellAt
    by_cases h1 : idx < (r.length : Int)
    · rw [if_pos h1, if_pos hidx, if_pos ⟨hidx, h1⟩]
    · rw [if_neg h1, if_neg (fun hc => h1 hc.2)]
  unfold buildWrap
  rw [hf]
  dsimp only
  split
  · exact absurd (by assumption) hm1
  · exact absurd (by assumption) hm2
  · exact absurd (by assumption) hm3
  · rfl

theorem mapGo_ok_of_all {f : α → GoOutcome β} {g : α → β} {l : List α}
    (h : ∀ a ∈ l, f a = .ok (g a)) : mapGo f l = .ok (l.map g) := by
  induction l with
  | nil => rfl
  | cons a rest ih =>
    unfold mapGo
    rw [h a (List.mem_cons_self a rest), ih (fun x hx => h x (List.mem_cons_of_mem a hx))]
    rfl

theorem lessWrap_unknown {opts : AdvancedSortOptions} {idx : Int}
    (hm1 : opts.mode ≠ "alphabetical") (hm2 : opts.mode ≠ "numeric")
    (hm3 : opts.mode ≠ "date") (a b : RowWrap) :
    lessWrap opts idx a b =
      if opts.order = "asc" then goStrLt (cmpCellAt idx a.row) (cmpCellAt idx b.row)
      else goStrLt (cmpCellAt idx b.row) (cmpCellAt idx a.row) := by
  unfold lessWrap
  split
  · exact absurd (by assumption) hm1
  · exact absurd (by assumption) hm2
  · exact absurd (by assumption) hm3
  · by_cases h : opts.order = "asc" <;> simp [h]

/-- C6 (amended): a sort mode that is none of `alphabetical`,
`numeric`, `date` is not rejected: provided the key resolves (to a
non-negative index), sorting succeeds and orders the rows by
lexicographic comparison of the raw key cells — in the REQUESTED
direction (ascending for order `asc`, reversed otherwise), not
unconditionally ascending as claimed. -/
theorem claim_C6_amended (tbl : TableData) (opts : AdvancedSortOptions)
    (hm1 : opts.mode ≠ "alphabetical") (hm2 : opts.mode ≠ "numeric")
    (hm3 : opts.mode ≠ "date")
    (idx : Int) (hres : ResolveKeyIndex tbl opts.key = .ok idx) (hidx : 0 ≤ idx) :
    ∃ out, sortSingleTable tbl opts = .ok (out, tbl.rows.length) ∧
      out.rows.Perm tbl.rows ∧
      (opts.order = "asc" →
        out.rows.Pairwise (fun r1 r2 =>
          goStrLt (cmpCellAt idx r2) (cmpCellAt idx r1) = false)) ∧
      (opts.order ≠ "asc" →
        out.rows.Pairwise (fun r1 r2 =>
          goStrLt (cmpCellAt idx r1) (cmpCellAt idx r2) = false)) := by
  have hmap : mapGo (buildWrap opts idx) tbl.rows =
      .ok (tbl.rows.map (fun r => ({ row := r } : RowWrap))) :=
    mapGo_ok_of_all (fun r _ => buildWrap_unknown hm1 hm2 hm3 hidx r)
  have hsort : sortSingleTable tbl opts =
      .ok ({ hasHeader := tbl.hasHeader, header := tbl.header,
             rows := (sliceStable (lessWrap opts idx)
               (tbl.rows.map (fun r => ({ row := r } : RowWrap)))).map (fun w => w.row) },
           tbl.rows.length) := by
    unfold sortSingleTable
    rw [hres]
    dsimp only
    rw [hmap]
  refine ⟨_, hsort, ?_, ?_, ?_⟩
  · have h1 := (sliceStable_perm (lessWrap opts idx)
      (tbl.rows.map (fun r => ({ row := r } : RowWrap)))).map (fun w => w.row)
    have h2 : (tbl.rows.map (fun r => ({ row := r } : RowWrap))).map (fun w => w.row) =
        tbl.rows := by
      rw [List.map_map]; exact List.map_id tbl.rows
    rw [h2] at h1
    exact h1
  · intro horder
    rw [List.pairwise_map]
    have base := @sliceStable_pairwise_sorted RowWrap (lessWrap opts idx)
      (by
        intro a b hab
        rw [lessWrap_unknown hm1 hm2 hm3] at hab ⊢
        rw [horder, if_pos rfl] at hab ⊢
        exact goStrLt_asymm hab)
      (by
        intro a b c hab hbc
        rw [lessWrap_unknown hm1 hm2 hm3] at hab hbc ⊢
        rw [horder, if_pos rfl] at hab hbc ⊢
        exact goStrLt_negtrans hab hbc)
      (tbl.rows.map (fun r => ({ row := r } : RowWrap)))
    refine base.imp_of_mem ?_
    intro a b _ _ hab
    rw [lessWrap_unknown hm1 hm2 hm3, horder, if_pos rfl] at hab
    exact hab
  · intro horder
    rw [List.pairwise_map]
    have base := @sliceStable_pairwise_sorted RowWrap (lessWrap opts idx)
      (by
        intro a b hab
        rw [lessWrap_unknown hm1 hm2 hm3] at hab ⊢
        rw [if_neg horder] at hab ⊢
        exact goStrLt_asymm hab)
      (by
        intro a b c hab hbc
        rw [lessWrap_unknown hm1 hm2 hm3] at hab hbc ⊢
        rw [if_neg horder] at hab hbc ⊢
        exact goStrLt_negtrans hbc hab)
      (tbl.rows.map (fun r => ({ row := r } : RowWrap)))
    refine base.imp_of_mem ?_
    intro a b _ _ hab
    rw [lessWrap_unknown hm1 hm2 hm3, if_neg horder] at hab
    exact hab

/-- C6 (counterexample): with an unknown mode "banana" and order
`desc`, the output is in DESCENDING raw-text order, refuting the
claim's "ascending ... regardless of the requested order direction". -/
theorem claim_C6_counterexample :
    sortSingleTable ⟨true, ["k"], [["a"], ["b"]]⟩
        ⟨"banana", "desc", "k", false, false, ""⟩ =
      .ok (⟨true, ["k"], [["b"], ["a"]]⟩, 2) :=
  rfl

/-- C6 (witness): the amended theorem applied to a concrete unknown
mode and descending order. -/
theorem claim_C6_witness :
    ∃ out, sortSingleTable ⟨true, ["k"], [["a"], ["b"]]⟩
        ⟨"banana", "desc", "k", false, false, ""⟩ = .ok (out, 2) ∧
      out.rows.Perm [["a"], ["b"]] ∧
      (("desc" : String) = "asc" →
        out.rows.Pairwise (fun r1 r2 =>
          goStrLt (cmpCellAt 0 r2) (cmpCellAt 0 r1) = false)) ∧
      (("desc" : String) ≠ "asc" →
        out.rows.Pairwise (fun r1 r2 =>
          goStrLt (cmpCellAt 0 r1) (cmpCellAt 0 r2) = false)) :=
  claim_C6_amended ⟨true, ["k"], [["a"], ["b"]]⟩ ⟨"banana", "desc", "k", false, false, ""⟩
    (by decide) (by decide) (by decide) 0 rfl (by decide)

/-! ## Claim C8 -/

/-- C8 (amended): provided the end-bound addition `offset + limit`
cannot leave the 64-bit int range — which the two linear side
conditions ensure for both effective limits — pagination never fails:
the computed bounds are always a valid slice, an offset at or beyond
the number of matched rows yields the empty result, and a non-positive
limit yields every row from the clamped offset
(`max 0 (min offset len)`) onward, the offset being clamped to
`[0, len]` and the end bound to `len`.  Without the proviso the
addition wraps and the slice expression panics (see the
counterexample). -/
theorem claim_C8_pagination (rows : List (List String)) (offset limit : Int)
    (hA : (rows.length : Int) + rows.length < 9223372036854775808)
    (hB : limit + (rows.length : Int) < 9223372036854775808) :
    (∃ out, pageSlice rows offset limit = .ok out) ∧
    ((rows.length : Int) ≤ offset → pageSlice rows offset limit = .ok []) ∧
    (limit ≤ 0 →
      pageSlice rows offset limit =
        .ok (rows.drop (max 0 (min offset (rows.length : Int))).toNat)) := by
  unfold pageSlice goSlice wrap64
  dsimp only
  refine ⟨?_, ?_, ?_⟩
  · split_ifs <;> first
      | exact ⟨_, rfl⟩
      | (exfalso; omega)
  · intro hoff
    split_ifs <;> first
      | (exfalso; omega)
      | (refine congrArg GoOutcome.ok ?_
         apply List.drop_eq_nil_of_le
         rw [List.length_take]
         omega)
  · intro hlim
    split_ifs <;> first
      | (exfalso; omega)
      | (refine congrArg GoOutcome.ok ?_
         have htake : ∀ (n : Int), n.toNat = rows.length → rows.take n.toNat = rows := by
           intro n hn
           rw [hn]
           exact List.take_length rows
         rw [htake _ (by omega)]
         congr 1
         omega)

/-- C8 (counterexample): pagination CAN fail — with one matched row,
offset 1 and the maximal int64 limit, the source's
`end := offset + limit` wraps to a negative value, the
`end > len` clamp does not fire, and `matchedRows[offset:end]` panics,
refuting "pagination never produces an error". -/
theorem claim_C8_counterexample :
    pageSlice [["a"]] 1 9223372036854775807 = .panic ∧
    wrap64 (1 + 9223372036854775807) = -9223372036854775808 :=
  ⟨rfl, rfl⟩

/-- C8 (witness): pagination applied at concrete inputs through the
theorem. -/
theorem claim_C8_witness :
    pageSlice [["a"], ["b"]] 5 7 = .ok [] ∧
    pageSlice [["a"], ["b"]] 1 0 = .ok [["b"]] :=
  ⟨(claim_C8_pagination [["a"], ["b"]] 5 7 (by decide) (by decide)).2.1 (by decide),
   (claim_C8_pagination [["a"], ["b"]] 1 0 (by decide) (by decide)).2.2 (by decide)⟩

/-! ## Claim C2 -/

theorem goIsSpace_not_syntax {c : Char} (h : goIsSpace c = true) :
    c ≠ '+' ∧ c ≠ '-' ∧ c ≠ '.' ∧ c.isDigit = false := by
  simp only [goIsSpace, decide_eq_true_eq] at h
  rcases h with h | h | h | h | h | h <;> subst h <;> refine ⟨by decide, by decide, by decide, by decide⟩

theorem trimRight_eq_nil_all_space {l : List Char} (h : trimRight l = []) :
    ∀ c ∈ l, goIsSpace c = true := by
  induction l with
  | nil => intro c hc; cases hc
  | cons a as1 ih =>
    unfold trimRight at h
    intro c hc
    cases hr : trimRight as1 with
    | nil =>
      rw [hr] at h
      rcases List.mem_cons.mp hc with rfl | hc'
      · by_cases hs : goIsSpace c
        · exact hs
        · rw [if_neg hs] at h; cases h
      · exact ih hr c hc'
    | cons r rs => rw [hr] at h; cases h

theorem dropWhile_nil_all {p : Char → Bool} {l : List Char}
    (h : l.dropWhile p = []) : ∀ c ∈ l, p c = true := by
  induction l with
  | nil => intro c hc; cases hc
  | cons a as1 ih =>
    rw [List.dropWhile] at h
    intro c hc
    by_cases ha : p a
    · rw [ha] at h
      rcases List.mem_cons.mp hc with rfl | hc'
      · exact ha
      · exact ih h c hc'
    · rw [Bool.eq_false_iff.mpr ha] at h
      cases h

theorem dropWhile_head_false {p : Char → Bool} {l : List Char} {a : Char}
    {rest : List Char} (h : l.dropWhile p = a :: rest) : p a = false := by
  induction l with
  | nil => cases h
  | cons x xs ih =>
    rw [List.dropWhile] at h
    by_cases hx : p x
    · rw [hx] at h
      exact ih h
    · rw [Bool.eq_false_iff.mpr hx] at h
      cases h
      exact Bool.eq_false_iff.mpr hx

theorem trimChars_eq_nil_all_space {l : List Char} (h : trimChars l = []) :
    ∀ c ∈ l, goIsSpace c = true := by
  unfold trimChars at h
  cases hdw : l.dropWhile goIsSpace with
  | nil => exact dropWhile_nil_all hdw
  | cons a rest =>
    exfalso
    rw [hdw] at h
    have ha := trimRight_eq_nil_all_space h a (List.mem_cons_self a rest)
    have := dropWhile_head_false hdw
    rw [ha] at this
    cases this

/-- On all-whitespace (or empty) input, the decimal float parse fails. -/
theorem parseGoFloat_all_space {s : String}
    (h : ∀ c ∈ s.data, goIsSpace c = true) : parseGoFloat s = none := by
  unfold parseGoFloat
  cases hd : s.data with
  | nil => rfl
  | cons c cs =>
    have hc := h c (hd ▸ List.mem_cons_self c cs)
    rcases goIsSpace_not_syntax hc with ⟨h1, h2, h3, h4⟩
    have hsign : parseSign (c :: cs) = (1, c :: cs) := by
      unfold parseSign
      split
      · rename_i heq
        cases heq
        exact absurd rfl h1
      · rename_i heq
        cases heq
        exact absurd rfl h2
      · rfl
    rw [hsign]
    dsimp only
    have htake : (c :: cs).takeWhile Char.isDigit = [] := by
      rw [List.takeWhile]
      rw [h4]
    have hdrop : (c :: cs).dropWhile Char.isDigit = c :: cs := by
      rw [List.dropWhile]
      rw [h4]
    rw [htake, hdrop]
    split
    · rename_i cs2 heq
      cases heq
      exact absurd rfl h3
    · simp

/-- C2 (amended): the comma-stripping, first-token-falling-back numeric
coercion is the SORT comparator's `tryParseFloat` only: blank input
fails, otherwise commas are removed and the remainder parsed, falling
back to the first whitespace-delimited token.  The Predicate
Evaluator's `tryParseNumber` is a direct float parse of the cell — no
comma stripping, no token fallback — with empty and blank input
failing as well. -/
theorem claim_C2_amended :
    (∀ s : String, goTrimSpace s = "" →
      tryParseFloat s = .ok (0, false) ∧ tryParseNumber s = none) ∧
    (∀ (s : String) (f : ℚ), goTrimSpace s ≠ "" →
      parseGoFloat (removeCommas s) = some f → tryParseFloat s = .ok (f, true)) ∧
    (∀ (s t : String) (f : ℚ), goTrimSpace s ≠ "" →
      parseGoFloat (removeCommas s) = none →
      (goFields (removeCommas s)).head? = some t → parseGoFloat t = some f →
      tryParseFloat s = .ok (f, true)) ∧
    (∀ s : String, tryParseNumber s = parseGoFloat s) := by
  refine ⟨?_, ?_, ?_, ?_⟩
  · intro s hs
    constructor
    · unfold tryParseFloat
      rw [if_pos hs]
    · unfold tryParseNumber
      by_cases he : s = ""
      · rw [if_pos he]
      · rw [if_neg he]
        apply parseGoFloat_all_space
        have : trimChars s.data = [] := by
          have := congrArg String.data hs
          exact this
        exact trimChars_eq_nil_all_space this
  · intro s f hs hp
    unfold tryParseFloat
    rw [if_neg hs]
    dsimp only
    rw [hp]
  · intro s t f hs hp hh hpt
    unfold tryParseFloat
    rw [if_neg hs]
    dsimp only
    rw [hp, hh]
    dsimp only
    rw [hpt]
  · intro s
    unfold tryParseNumber
    by_cases he : s = ""
    · rw [if_pos he, he]
      rfl
    · rw [if_neg he]

/-- C2 (counterexample): the Predicate Evaluator's numeric coercion
does not strip comma thousands separators — `tryParseNumber "1,024"`
fails where the claimed shared behaviour (exhibited by the sort side's
`tryParseFloat`) yields 1024. -/
theorem claim_C2_counterexample :
    tryParseNumber "1,024" = none ∧ tryParseFloat "1,024" = .ok (1024, true) ∧
    tryParseNumber " 12 kg" = none ∧ tryParseFloat " 12 kg" = .ok (12, true) :=
  ⟨rfl, rfl, rfl, rfl⟩

/-- C2 (witness): the amended theorem applied at concrete inputs. -/
theorem claim_C2_witness :
    tryParseFloat "1,024" = .ok (1024, true) ∧
    tryParseFloat " " = .ok (0, false) ∧
    tryParseFloat " 12 kg" = .ok (12, true) :=
  ⟨claim_C2_amended.2.1 "1,024" 1024 (by decide) (by decide),
   (claim_C2_amended.1 " " (by decide)).1,
   claim_C2_amended.2.2.1 " 12 kg" "12" 12 (by decide) (by decide) (by decide) (by decide)⟩

/-! ## Claim C3 -/

theorem findHeaderIdx_none {header : List String} {keyTrim : String}
    (h : ∀ x ∈ header, goEqualFold (goTrimSpace x) keyTrim = false) :
    findHeaderIdx header keyTrim = none := by
  induction header with
  | nil => rfl
  | cons a rest ih =>
    unfold findHeaderIdx
    rw [h a (List.mem_cons_self a rest), ih (fun x hx => h x (List.mem_cons_of_mem a hx))]
    simp

theorem find?_some_of_mem {p : α → Bool} {l : List α} {c : α}
    (hc : c ∈ l) (hp : p c = true) : ∃ y, l.find? p = some y := by
  induction l with
  | nil => cases hc
  | cons a rest ih =>
    by_cases hpa : p a
    · exact ⟨a, by rw [List.find?_cons_of_pos _ hpa]⟩
    · rcases List.mem_cons.mp hc with rfl | hc'
      · exact absurd hp hpa
      · rcases ih hc' with ⟨y, hy⟩
        exact ⟨y, by rw [List.find?_cons_of_neg _ hpa, hy]⟩

/-- C3 (amended): the numeric-position fallback of column resolution
belongs to the Sort Comparator's `ResolveKeyIndex` only: an identifier
matching no header entry but parsing as a non-negative in-range
integer resolves to that position there.  The Predicate Evaluator's
pre-validation, by contrast, only accepts identifiers whose
lowercased, trimmed form is a key of the header map: a purely numeric
identifier that names no header entry fails the whole request with a
column-not-found error. -/
theorem claim_C3_amended :
    (∀ (tbl : TableData) (key : String) (idx : Int),
      tbl.hasHeader = true →
      (∀ h ∈ tbl.header, goEqualFold (goTrimSpace h) (goTrimSpace key) = false) →
      goAtoi key = some idx → 0 ≤ idx → idx < (tbl.header.length : Int) →
      ResolveKeyIndex tbl key = .ok idx) ∧
    (∀ (req : AdvancedExtractRequest) (c : String),
      c ∈ gatherColumnsFromGroup req.filter [] →
      mapLookup (buildHeaderMap req.dataset.header) c = none →
      ∃ msg, AdvancedExtract req = .error msg) := by
  constructor
  · intro tbl key idx hh hnone hatoi h0 hlen
    unfold ResolveKeyIndex
    rw [if_pos (by rw [hh])]
    dsimp only
    rw [findHeaderIdx_none hnone]
    dsimp only
    rw [hatoi]
    dsimp only
    rw [if_neg (by omega)]
  · intro req c hc hnone
    unfold AdvancedExtract
    have hp : (mapLookup (buildHeaderMap req.dataset.header) c).isNone = true := by
      rw [hnone]
      rfl
    rcases @find?_some_of_mem String
      (fun x => (mapLookup (buildHeaderMap req.dataset.header) x).isNone) _ _ hc hp
      with ⟨y, hy⟩
    dsimp only
    rw [hy]
    exact ⟨_, rfl⟩

/-- C3 (counterexample): with header `["a", "b"]`, the identifier "1"
parses as an in-range position and `ResolveKeyIndex` resolves it, but
the Predicate Evaluator's pre-validation rejects a filter that
references column "1", refuting "succeeds ... in both". -/
theorem claim_C3_counterexample :
    ResolveKeyIndex ⟨true, ["a", "b"], []⟩ "1" = .ok 1 ∧
    goAtoi "1" = some 1 ∧
    AdvancedExtract ⟨"advanced_extract", ⟨false, false, ""⟩, ⟨true, ["a", "b"], [["x", "y"]]⟩,
        .mk "and" [⟨"1", "is_not_null", .nil, none, none⟩] [], ⟨0, 0⟩⟩ =
      .error "filter column '1' not found in dataset. available headers: [a, b]" :=
  ⟨rfl, rfl, rfl⟩

/-- C3 (witness): the amended theorem applied at concrete inputs. -/
theorem claim_C3_witness :
    ResolveKeyIndex ⟨true, ["a", "b"], []⟩ "1" = .ok 1 ∧
    (∃ msg, AdvancedExtract ⟨"advanced_extract", ⟨false, false, ""⟩,
        ⟨true, ["a", "b"], [["x", "y"]]⟩,
        .mk "and" [⟨"1", "is_not_null", .nil, none, none⟩] [], ⟨0, 0⟩⟩ = .error msg) :=
  ⟨claim_C3_amended.1 ⟨true, ["a", "b"], []⟩ "1" 1 rfl
      (by decide) (by decide) (by decide) (by decide),
   claim_C3_amended.2 ⟨"advanced_extract", ⟨false, false, ""⟩,
        ⟨true, ["a", "b"], [["x", "y"]]⟩,
        .mk "and" [⟨"1", "is_not_null", .nil, none, none⟩] [], ⟨0, 0⟩⟩ "1"
      (by decide) (by decide)⟩

/-! ## Whitespace normalization facts -/

theorem fieldsChars_words : ∀ (l : List Char), ∀ w ∈ fieldsChars l,
    w ≠ [] ∧ ∀ c ∈ w, goIsSpace c = false := by
  intro l
  induction l with
  | nil => intro w hw; cases hw
  | cons c cs ih =>
    intro w hw
    unfold fieldsChars at hw
    by_cases hc : goIsSpace c
    · rw [if_pos hc] at hw
      exact ih w hw
    · rw [if_neg hc] at hw
      have hc' : goIsSpace c = false := Bool.eq_false_iff.mpr hc
      cases cs with
      | nil =>
        rcases List.mem_cons.mp hw with rfl | hw'
        · exact ⟨by simp, by intro x hx; rcases List.mem_cons.mp hx with rfl | hx'
                             · exact hc'
                             · cases hx'⟩
        · cases hw'
      | cons d ds =>
        dsimp only at hw
        by_cases hd : goIsSpace d = true
        · rw [if_pos hd] at hw
          rcases List.mem_cons.mp hw with rfl | hw'
          · exact ⟨by simp, by intro x hx; rcases List.mem_cons.mp hx with rfl | hx'
                               · exact hc'
                               · cases hx'⟩
          · exact ih w hw'
        · rw [if_neg hd] at hw
          cases hfd : fieldsChars (d :: ds) with
          | nil =>
            rw [hfd] at hw
            rcases List.mem_cons.mp hw with rfl | hw'
            · exact ⟨by simp, by intro x hx; rcases List.mem_cons.mp hx with rfl | hx'
                                 · exact hc'
                                 · cases hx'⟩
            · cases hw'
          | cons v vs =>
            rw [hfd] at hw
            rcases List.mem_cons.mp hw with rfl | hw'
            · have hv := ih v (by rw [hfd]; exact List.mem_cons_self v vs)
              refine ⟨by simp, ?_⟩
              intro x hx
              rcases List.mem_cons.mp hx with rfl | hx'
              · exact hc'
              · exact hv.2 x hx'
            · exact ih w (by rw [hfd]; exact List.mem_cons_of_mem v hw')

theorem trimRight_all_nonspace {w : List Char}
    (h : ∀ c ∈ w, goIsSpace c = false) : trimRight w = w := by
  induction w with
  | nil => rfl
  | cons a as1 ih =>
    unfold trimRight
    rw [ih (fun c hc => h c (List.mem_cons_of_mem a hc))]
    cases as1 with
    | nil =>
      rw [h a (List.mem_cons_self a [])]
      rfl
    | cons b bs => rfl

theorem trimRight_append {l1 l2 : List Char} (h : trimRight l2 ≠ []) :
    trimRight (l1 ++ l2) = l1 ++ trimRight l2 := by
  induction l1 with
  | nil => rfl
  | cons a as1 ih =>
    show trimRight (a :: (as1 ++ l2)) = a :: (as1 ++ trimRight l2)
    rw [show trimRight (a :: (as1 ++ l2)) =
        (match trimRight (as1 ++ l2) with
         | [] => if goIsSpace a then [] else [a]
         | r => a :: r) from rfl]
    rw [ih]
    cases hr : as1 ++ trimRight l2 with
    | nil =>
      exfalso
      rcases List.append_eq_nil.mp hr with ⟨_, h2⟩
      exact h h2
    | cons x xs => rfl

theorem joinWords_words_ne_nil {ws : List (List Char)} (hne : ws ≠ [])
    (hw : ∀ w ∈ ws, w ≠ []) : joinWords ws ≠ [] := by
  cases ws with
  | nil => exact absurd rfl hne
  | cons w ws1 =>
    cases ws1 with
    | nil => exact hw w (List.mem_cons_self w [])
    | cons v vs =>
      show w ++ ' ' :: joinWords (v :: vs) ≠ []
      intro hcontra
      rcases List.append_eq_nil.mp hcontra with ⟨_, h2⟩
      cases h2

theorem joinWords_dropWhile {ws : List (List Char)}
    (h : ∀ w ∈ ws, w ≠ [] ∧ ∀ c ∈ w, goIsSpace c = false) :
    (joinWords ws).dropWhile goIsSpace = joinWords ws := by
  cases ws with
  | nil => rfl
  | cons w ws1 =>
    have hw := h w (List.mem_cons_self w ws1)
    obtain ⟨a, as1, hwd⟩ : ∃ a as1, w = a :: as1 := by
      cases w with
      | nil => exact absurd rfl hw.1
      | cons a as1 => exact ⟨a, as1, rfl⟩
    subst hwd
    have ha : goIsSpace a = false := hw.2 a (List.mem_cons_self a as1)
    have heq : ∃ as2, joinWords ((a :: as1) :: ws1) = a :: as2 := by
      cases ws1 with
      | nil => exact ⟨as1, rfl⟩
      | cons v vs => exact ⟨as1 ++ ' ' :: joinWords (v :: vs), rfl⟩
    rcases heq with ⟨as2, heq⟩
    rw [heq]
    simp [List.dropWhile_cons, ha]

theorem trimChars_joinWords {ws : List (List Char)}
    (h : ∀ w ∈ ws, w ≠ [] ∧ ∀ c ∈ w, goIsSpace c = false) :
    trimChars (joinWords ws) = joinWords ws := by
  induction ws with
  | nil => rfl
  | cons w ws1 ih =>
    have hw := h w (List.mem_cons_self w ws1)
    unfold trimChars
    rw [joinWords_dropWhile h]
    cases ws1 with
    | nil =>
      show trimRight (joinWords [w]) = joinWords [w]
      exact trimRight_all_nonspace hw.2
    | cons v vs =>
      have hrest : ∀ u ∈ v :: vs, u ≠ [] ∧ ∀ c ∈ u, goIsSpace c = false :=
        fun u hu => h u (List.mem_cons_of_mem w hu)
      have hjr : trimRight (joinWords (v :: vs)) = joinWords (v :: vs) := by
        have := ih hrest
        unfold trimChars at this
        rw [joinWords_dropWhile hrest] at this
        exact this
      have hjne : joinWords (v :: vs) ≠ [] :=
        joinWords_words_ne_nil (by simp) (fun u hu => (hrest u hu).1)
      have h2 : trimRight (' ' :: joinWords (v :: vs)) = ' ' :: joinWords (v :: vs) := by
        rw [show trimRight (' ' :: joinWords (v :: vs)) =
            (match trimRight (joinWords (v :: vs)) with
             | [] => if goIsSpace ' ' then [] else [' ']
             | r => ' ' :: r) from rfl]
        rw [hjr]
        cases hj : joinWords (v :: vs) with
        | nil => exact absurd hj hjne
        | cons x xs => rfl
      show trimRight (w ++ ' ' :: joinWords (v :: vs)) = w ++ ' ' :: joinWords (v :: vs)
      calc trimRight (w ++ ' ' :: joinWords (v :: vs))
          = w ++ trimRight (' ' :: joinWords (v :: vs)) := by
            apply trimRight_append
            rw [h2]
            intro hcontra
            cases hcontra
        _ = w ++ ' ' :: joinWords (v :: vs) := by rw [h2]

/-- Trimming the output of `WhitespaceTrimmer` is a no-op. -/
theorem goTrimSpace_WhitespaceTrimmer (s : String) :
    goTrimSpace (WhitespaceTrimmer s) = WhitespaceTrimmer s := by
  unfold goTrimSpace WhitespaceTrimmer
  apply congrArg
  exact trimChars_joinWords (fieldsChars_words (trimChars s.data))

/-! ## Claim C7 -/

/-- The evaluator's cell after optional trimming: trimming it again is
a no-op (used to reconcile `in` and `not_in`). -/
theorem trimIf_idem (tr : Bool) (c0 : String) :
    (if tr then goTrimSpace (if tr then WhitespaceTrimmer c0 else c0)
     else (if tr then WhitespaceTrimmer c0 else c0)) =
    (if tr then WhitespaceTrimmer c0 else c0) := by
  cases tr
  · rfl
  · simp [goTrimSpace_WhitespaceTrimmer]

/-- C7 (confirmed): for any resolvable column, value, per-condition
overrides, row and request options, `not_equals` evaluates to the
exact negation of `equals`, `not_contains` of `contains`, and `not_in`
of `in`; none of the six ever produces an error.  (For `in`/`not_in`
this relies on the positive side's extra `TrimSpace` being a no-op on
the already-normalized cell.) -/
theorem claim_C7_negations (column : String) (value : GoValue) (cio tso : Option Bool)
    (row : List String) (hm : List (String × Nat)) (opts : AdvancedExtractOptions)
    (idx : Nat)
    (hlookup : mapLookup hm (goToLower (goTrimSpace column)) = some idx) :
    (∃ b, evalCondition ⟨column, "equals", value, cio, tso⟩ row hm opts = .ok b ∧
      evalCondition ⟨column, "not_equals", value, cio, tso⟩ row hm opts = .ok (! b)) ∧
    (∃ b, evalCondition ⟨column, "contains", value, cio, tso⟩ row hm opts = .ok b ∧
      evalCondition ⟨column, "not_contains", value, cio, tso⟩ row hm opts = .ok (! b)) ∧
    (∃ b, evalCondition ⟨column, "in", value, cio, tso⟩ row hm opts = .ok b ∧
      evalCondition ⟨column, "not_in", value, cio, tso⟩ row hm opts = .ok (! b)) := by
  refine ⟨⟨evalEquals value (if boolOption opts.trimSpaces tso
        then WhitespaceTrimmer (fetchCell idx row) else fetchCell idx row)
      (boolOption opts.trimSpaces tso) (boolOption opts.caseInsensitive cio), ?_, ?_⟩,
    ⟨evalContains value (if boolOption opts.trimSpaces tso
        then WhitespaceTrimmer (fetchCell idx row) else fetchCell idx row)
      (boolOption opts.trimSpaces tso) (boolOption opts.caseInsensitive cio), ?_, ?_⟩,
    ⟨stringInList (if boolOption opts.trimSpaces tso
        then WhitespaceTrimmer (fetchCell idx row) else fetchCell idx row)
      value (boolOption opts.caseInsensitive cio) (boolOption opts.trimSpaces tso),
      ?_, ?_⟩⟩ <;>
    (unfold evalCondition; rw [hlookup]; dsimp only)
  · rfl
  · rfl
  · rfl
  · rfl
  · show GoOutcome.ok (stringInList (if boolOption opts.trimSpaces tso
          then goTrimSpace (if boolOption opts.trimSpaces tso
            then WhitespaceTrimmer (fetchCell idx row) else fetchCell idx row)
          else (if boolOption opts.trimSpaces tso
            then WhitespaceTrimmer (fetchCell idx row) else fetchCell idx row))
        value (boolOption opts.caseInsensitive cio) (boolOption opts.trimSpaces tso)) =
      GoOutcome.ok (stringInList (if boolOption opts.trimSpaces tso
          then WhitespaceTrimmer (fetchCell idx row) else fetchCell idx row)
        value (boolOption opts.caseInsensitive cio) (boolOption opts.trimSpaces tso))
    rw [trimIf_idem]
  · rfl

/-- C7 (witness): the negation pairs at a concrete condition and row. -/
theorem claim_C7_witness :
    (∃ b, evalCondition ⟨"c", "equals", .str "a b", none, none⟩ ["a   b"]
        (buildHeaderMap ["c"]) ⟨true, false, ""⟩ = .ok b ∧
      evalCondition ⟨"c", "not_equals", .str "a b", none, none⟩ ["a   b"]
        (buildHeaderMap ["c"]) ⟨true, false, ""⟩ = .ok (! b)) ∧
    (∃ b, evalCondition ⟨"c", "contains", .str "a b", none, none⟩ ["a   b"]
        (buildHeaderMap ["c"]) ⟨true, false, ""⟩ = .ok b ∧
      evalCondition ⟨"c", "not_contains", .str "a b", none, none⟩ ["a   b"]
        (buildHeaderMap ["c"]) ⟨true, false, ""⟩ = .ok (! b)) ∧
    (∃ b, evalCondition ⟨"c", "in", .str "a b", none, none⟩ ["a   b"]
        (buildHeaderMap ["c"]) ⟨true, false, ""⟩ = .ok b ∧
      evalCondition ⟨"c", "not_in", .str "a b", none, none⟩ ["a   b"]
        (buildHeaderMap ["c"]) ⟨true, false, ""⟩ = .ok (! b)) :=
  claim_C7_negations "c" (.str "a b") none none ["a   b"]
    (buildHeaderMap ["c"]) ⟨true, false, ""⟩ 0 rfl

/-! ## Claim C10 -/

theorem hc_contra {b : Bool} (h2 : (b : Prop)) (hb : ¬ b = true) : False :=
  hb h2

theorem fieldsChars_cons (c : Char) (cs : List Char) :
    fieldsChars (c :: cs) =
      if goIsSpace c then
        fieldsChars cs
      else
        match cs with
        | [] => [[c]]
        | d :: _ =>
          if goIsSpace d then [c] :: fieldsChars cs
          else
            match fieldsChars cs with
            | [] => [[c]]
            | w :: ws => (c :: w) :: ws := rfl

theorem trimRight_cons (c : Char) (cs : List Char) :
    trimRight (c :: cs) =
      match trimRight cs with
      | [] => if goIsSpace c then [] else [c]
      | r => c :: r := rfl

theorem fieldsChars_cons_space {c : Char} {cs : List Char}
    (hc : goIsSpace c = true) : fieldsChars (c :: cs) = fieldsChars cs := by
  rw [fieldsChars_cons, if_pos (by rw [hc] : goIsSpace c = true)]

theorem fieldsChars_all_space {l : List Char}
    (h : ∀ c ∈ l, goIsSpace c = true) : fieldsChars l = [] := by
  induction l with
  | nil => rfl
  | cons c cs ih =>
    rw [fieldsChars_cons_space (h c (List.mem_cons_self c cs))]
    exact ih (fun x hx => h x (List.mem_cons_of_mem c hx))

theorem fieldsChars_dropWhile (l : List Char) :
    fieldsChars (l.dropWhile goIsSpace) = fieldsChars l := by
  induction l with
  | nil => rfl
  | cons c cs ih =>
    rw [List.dropWhile]
    by_cases hc : goIsSpace c = true
    · rw [hc]
      dsimp only
      rw [ih, fieldsChars_cons_space hc]
    · rw [Bool.eq_false_iff.mpr hc]

theorem trimRight_cons_ne_nil {d : Char} {cs : List Char}
    (h : trimRight (d :: cs) ≠ []) : trimRight (d :: cs) = d :: trimRight cs := by
  rw [trimRight_cons] at h ⊢
  cases hr : trimRight cs with
  | nil =>
    rw [hr] at h
    dsimp only at h ⊢
    by_cases hd : goIsSpace d = true
    · rw [if_pos (by rw [hd] : goIsSpace d = true)] at h
      exact absurd rfl h
    · rw [if_neg (fun h2 => hc_contra h2 hd)]
  | cons x xs => rfl

theorem fieldsChars_trimRight (l : List Char) :
    fieldsChars (trimRight l) = fieldsChars l := by
  induction l with
  | nil => rfl
  | cons c cs ih =>
    rw [trimRight_cons]
    cases hr : trimRight cs with
    | nil =>
      have hall : ∀ x ∈ cs, goIsSpace x = true := trimRight_eq_nil_all_space hr
      have hfcs : fieldsChars cs = [] := fieldsChars_all_space hall
      dsimp only
      by_cases hc : goIsSpace c = true
      · rw [if_pos (by rw [hc] : goIsSpace c = true)]
        rw [show fieldsChars ([] : List Char) = [] from rfl]
        rw [fieldsChars_cons_space hc, hfcs]
      · rw [if_neg (fun h2 => hc_contra h2 hc)]
        rw [fieldsChars_cons, if_neg (fun h2 => hc_contra h2 hc)]
        rw [fieldsChars_cons, if_neg (fun h2 => hc_contra h2 hc)]
        cases cs with
        | nil => rfl
        | cons d ds =>
          dsimp only
          rw [if_pos (by rw [hall d (List.mem_cons_self d ds)] : goIsSpace d = true)]
          rw [hfcs]
    | cons x xs =>
      have hne : trimRight cs ≠ [] := by rw [hr]; exact fun h2 => by cases h2
      obtain ⟨d, cs2, hcs⟩ : ∃ d cs2, cs = d :: cs2 := by
        cases cs with
        | nil => exact absurd rfl hne
        | cons d cs2 => exact ⟨d, cs2, rfl⟩
      subst hcs
      have hstep : trimRight (d :: cs2) = d :: trimRight cs2 := trimRight_cons_ne_nil hne
      rw [← hr, hstep]
      dsimp only
      by_cases hc : goIsSpace c = true
      · rw [fieldsChars_cons_space hc, fieldsChars_cons_space hc, ← hstep]
        exact ih
      · rw [fieldsChars_cons, if_neg (fun h2 => hc_contra h2 hc)]
        rw [fieldsChars_cons c (d :: cs2), if_neg (fun h2 => hc_contra h2 hc)]
        dsimp only
        have hrec : fieldsChars (d :: trimRight cs2) = fieldsChars (d :: cs2) := by
          rw [show fieldsChars (d :: trimRight cs2) = fieldsChars (trimRight (d :: cs2)) from
            by rw [hstep]]
          exact ih
        by_cases hd : goIsSpace d = true
        · rw [if_pos (by rw [hd] : goIsSpace d = true),
            if_pos (by rw [hd] : goIsSpace d = true), hrec]
        · rw [if_neg (fun h2 => hc_contra h2 hd), if_neg (fun h2 => hc_contra h2 hd), hrec]

theorem fieldsChars_trimChars (l : List Char) :
    fieldsChars (trimChars l) = fieldsChars l := by
  unfold trimChars
  rw [fieldsChars_trimRight, fieldsChars_dropWhile]

/-- Cells with the same whitespace-delimited words normalize
identically under `WhitespaceTrimmer`. -/
theorem WhitespaceTrimmer_eq_of_fields {c1 c2 : String}
    (h : fieldsChars c1.data = fieldsChars c2.data) :
    WhitespaceTrimmer c1 = WhitespaceTrimmer c2 := by
  unfold WhitespaceTrimmer
  rw [fieldsChars_trimChars, fieldsChars_trimChars, h]

/-- C10 (confirmed): when trimming is in effect for a condition
(per-condition override if present, else the request default), the
evaluator normalizes the fetched cell with `WhitespaceTrimmer` —
removing leading/trailing whitespace and collapsing internal runs —
before dispatching on the operator, so two cells with the same
whitespace-delimited words are treated identically by every operator. -/
theorem claim_C10_trim_normalization (cond : Condition) (c1 c2 : String)
    (hm : List (String × Nat)) (opts : AdvancedExtractOptions)
    (hlookup : mapLookup hm (goToLower (goTrimSpace cond.column)) = some 0)
    (htrim : boolOption opts.trimSpaces cond.trimSpaces = true)
    (hfields : fieldsChars c1.data = fieldsChars c2.data) :
    WhitespaceTrimmer c1 = WhitespaceTrimmer c2 ∧
    evalCondition cond [c1] hm opts = evalCondition cond [c2] hm opts := by
  have hW : WhitespaceTrimmer c1 = WhitespaceTrimmer c2 :=
    WhitespaceTrimmer_eq_of_fields hfields
  refine ⟨hW, ?_⟩
  unfold evalCondition
  rw [hlookup]
  dsimp only
  rw [htrim]
  rw [show fetchCell 0 [c1] = c1 from rfl, show fetchCell 0 [c2] = c2 from rfl]
  rw [if_pos rfl, if_pos rfl, hW]
  rfl

/-- C10 (witness): two cells differing only in an internal whitespace
run are treated identically, here by `equals`. -/
theorem claim_C10_witness :
    WhitespaceTrimmer "a \t b" = WhitespaceTrimmer "a b" ∧
    evalCondition ⟨"c", "equals", .str "a b", none, none⟩ ["a \t b"]
        (buildHeaderMap ["c"]) ⟨true, false, ""⟩ =
      evalCondition ⟨"c", "equals", .str "a b", none, none⟩ ["a b"]
        (buildHeaderMap ["c"]) ⟨true, false, ""⟩ :=
  claim_C10_trim_normalization ⟨"c", "equals", .str "a b", none, none⟩ "a \t b" "a b"
    (buildHeaderMap ["c"]) ⟨true, false, ""⟩ rfl rfl (by decide)

/-! ## Claim C4 -/

/-- The evaluator's normalized cell for a condition. -/
def effCell (cond : Condition) (row : List String) (idx : Nat)
    (opts : AdvancedExtractOptions) : String :=
  if boolOption opts.trimSpaces cond.trimSpaces then WhitespaceTrimmer (fetchCell idx row)
  else fetchCell idx row

/-- The evaluator's formatted-and-optionally-trimmed operand string. -/
def effVstr (cond : Condition) (opts : AdvancedExtractOptions) : String :=
  if boolOption opts.trimSpaces cond.trimSpaces then goTrimSpace (fmtValue cond.value)
  else fmtValue cond.value

/-- C4 (amended): the `gt`/`gte`/`lt`/`lte` family never returns an
error.  With a numeric (`float64`) operand, only numeric comparison is
attempted: a non-numeric cell makes the condition `false` with NO date
fallback (contrary to the original claim).  With a string operand the
claimed chain holds: numeric comparison first; if the cell is not
numeric (but the operand parsed as a number), a date-vs-date fallback;
if the operand is not numeric, a final date comparison of cell and
raw operand; if nothing coerces, `false`. -/
theorem claim_C4_amended (column op : String) (value : GoValue)
    (cio tso : Option Bool) (row : List String) (hm : List (String × Nat))
    (opts : AdvancedExtractOptions) (idx : Nat)
    (hop : op = "gt" ∨ op = "gte" ∨ op = "lt" ∨ op = "lte")
    (hlookup : mapLookup hm (goToLower (goTrimSpace column)) = some idx) :
    (∃ b, evalCondition ⟨column, op, value, cio, tso⟩ row hm opts = .ok b) ∧
    (∀ v c, value = .num v →
      tryParseNumber (effCell ⟨column, op, value, cio, tso⟩ row idx opts) = some c →
      evalCondition ⟨column, op, value, cio, tso⟩ row hm opts = .ok (cmpFloat op c v)) ∧
    (∀ v, value = .num v →
      tryParseNumber (effCell ⟨column, op, value, cio, tso⟩ row idx opts) = none →
      evalCondition ⟨column, op, value, cio, tso⟩ row hm opts = .ok false) ∧
    (∀ s vnum c, value = .str s →
      parseGoFloat (effVstr ⟨column, op, value, cio, tso⟩ opts) = some vnum →
      tryParseNumber (effCell ⟨column, op, value, cio, tso⟩ row idx opts) = some c →
      evalCondition ⟨column, op, value, cio, tso⟩ row hm opts = .ok (cmpFloat op c vnum)) ∧
    (∀ s vnum t1 t2, value = .str s →
      parseGoFloat (effVstr ⟨column, op, value, cio, tso⟩ opts) = some vnum →
      tryParseNumber (effCell ⟨column, op, value, cio, tso⟩ row idx opts) = none →
      tryParseDate (effCell ⟨column, op, value, cio, tso⟩ row idx opts) opts.dateFormat = some t1 →
      tryParseDate (effVstr ⟨column, op, value, cio, tso⟩ opts) opts.dateFormat = some t2 →
      evalCondition ⟨column, op, value, cio, tso⟩ row hm opts = .ok (cmpDate op t1 t2)) ∧
    (∀ s t1 t2, value = .str s →
      parseGoFloat (effVstr ⟨column, op, value, cio, tso⟩ opts) = none →
      tryParseDate (effCell ⟨column, op, value, cio, tso⟩ row idx opts) opts.dateFormat = some t1 →
      s ≠ "" →
      tryParseDate s opts.dateFormat = some t2 →
      evalCondition ⟨column, op, value, cio, tso⟩ row hm opts = .ok (cmpDate op t1 t2)) ∧
    (∀ s, value = .str s →
      parseGoFloat (effVstr ⟨column, op, value, cio, tso⟩ opts) = none →
      tryParseDate (effCell ⟨column, op, value, cio, tso⟩ row idx opts) opts.dateFormat = none →
      evalCondition ⟨column, op, value, cio, tso⟩ row hm opts = .ok false) := by
  have hEval : evalCondition ⟨column, op, value, cio, tso⟩ row hm opts =
      .ok (gtFamily op value (effCell ⟨column, op, value, cio, tso⟩ row idx opts)
        (boolOption opts.trimSpaces tso) opts.dateFormat) := by
    rcases hop with rfl | rfl | rfl | rfl <;>
      (unfold evalCondition; rw [hlookup]; dsimp only; rfl)
  refine ⟨⟨_, hEval⟩, ?_, ?_, ?_, ?_, ?_, ?_⟩
  · intro v c hv hc
    subst hv
    rw [hEval]
    unfold gtFamily
    rw [hc]
  · intro v hv hc
    subst hv
    rw [hEval]
    unfold gtFamily
    rw [hc]
  · intro s vnum c hv hvs hc
    subst hv
    rw [hEval]
    unfold gtFamily
    dsimp only
    rw [show (if boolOption opts.trimSpaces tso then goTrimSpace (fmtValue (.str s))
        else fmtValue (.str s)) = effVstr ⟨column, op, .str s, cio, tso⟩ opts from rfl]
    rw [hvs]
    dsimp only
    rw [hc]
  · intro s vnum t1 t2 hv hvs hc h1 h2
    subst hv
    rw [hEval]
    unfold gtFamily
    dsimp only
    rw [show (if boolOption opts.trimSpaces tso then goTrimSpace (fmtValue (.str s))
        else fmtValue (.str s)) = effVstr ⟨column, op, .str s, cio, tso⟩ opts from rfl]
    rw [hvs]
    dsimp only
    rw [hc, h1, h2]
  · intro s t1 t2 hv hvs h1 hs h2
    subst hv
    rw [hEval]
    unfold gtFamily
    dsimp only
    rw [show (if boolOption opts.trimSpaces tso then goTrimSpace (fmtValue (.str s))
        else fmtValue (.str s)) = effVstr ⟨column, op, .str s, cio, tso⟩ opts from rfl]
    rw [hvs]
    dsimp only
    rw [h1]
    dsimp only
    rw [show fmtValue (GoValue.str s) = s from rfl]
    rw [if_pos hs, h2]
  · intro s hv hvs h1
    subst hv
    rw [hEval]
    unfold gtFamily
    dsimp only
    rw [show (if boolOption opts.trimSpaces tso then goTrimSpace (fmtValue (.str s))
        else fmtValue (.str s)) = effVstr ⟨column, op, .str s, cio, tso⟩ opts from rfl]
    rw [hvs]
    dsimp only
    rw [h1]

/-- C4 (counterexample): with the request date format "2006", a
numeric operand 2006 and the non-numeric, date-coercible cell
"2007-05-05", the code returns `false` without attempting the date
comparison the claim requires — both sides coerce as dates and the
claimed date comparison would yield `true`. -/
theorem claim_C4_counterexample :
    evalCondition ⟨"d", "gt", .num 2006, none, none⟩ ["2007-05-05"]
        (buildHeaderMap ["d"]) ⟨false, false, "2006"⟩ = .ok false ∧
    tryParseNumber "2007-05-05" = none ∧
    tryParseDate "2007-05-05" "2006" = some 1178323200 ∧
    tryParseDate (fmtValue (.num 2006)) "2006" = some 1136073600 ∧
    cmpDate "gt" 1178323200 1136073600 = true :=
  ⟨rfl, rfl, rfl, rfl, rfl⟩

/-- C4 (witness): the amended theorem applied at concrete inputs —
the numeric-operand branch yields `false` on a non-numeric cell. -/
theorem claim_C4_witness :
    evalCondition ⟨"d", "gt", .num 2006, none, none⟩ ["2007-05-05"]
        (buildHeaderMap ["d"]) ⟨false, false, "2006"⟩ = .ok false :=
  (claim_C4_amended "d" "gt" (.num 2006) none none ["2007-05-05"]
      (buildHeaderMap ["d"]) ⟨false, false, "2006"⟩ 0
      (Or.inl rfl) rfl).2.2.1 2006 rfl (by decide)

end CsvOps
